import Mathlib

/-!
Verification of the group-coordinated bandwidth throttle.

The development shallowly embeds the source components:
  * the integer partitioner used by the group for fair budget slicing,
  * the per-stream throttle (plain variant, `BandwidthThrottle`),
  * the per-stream throttle with backpressure (`BandwidthThrottleWithBackpressure`),
  * the group (`BandwidthThrottleGroup`): registries, clock flag and tick counters,
and proves the fairness, conservation, lifecycle and equivalence properties
stated about them.

Bytes are modelled as natural numbers, byte buffers as lists of naturals,
`Uint8Array.subarray`/`set` as the corresponding list operations, and the
host stream plumbing (promises, controllers) is abstracted away: each method
returns its successor state together with the ordered list of callbacks it
fires at the parent group.
-/

namespace Throttling

/-- Modelled from the spec: `getPartitionedIntegerPartAtIndex`
(the file `Util/getPartitionedIntegerPartAtIndex.ts` is imported by the group
but absent from the sources). Splits `total` into `parts` non-negative
integers that sum exactly to `total`, returning the part at `index`; each
part is `total / parts` or `total / parts + 1`, and the first
`total % parts` indices receive the larger value. -/
def getPartitionedIntegerPartAtIndex (total parts index : Nat) : Nat :=
  total / parts + if index < total % parts then 1 else 0

/-- The subset of `Config` fields the throttles and the group read
(`bytesPerSecond`, `isThrottled`, `ticksPerSecond`, `maxBufferSize`). -/
structure Config where
  bytesPerSecond : Nat
  isThrottled : Bool
  ticksPerSecond : Nat
  maxBufferSize : Nat
deriving DecidableEq, Repr

/-! ## Arithmetic facts about the partitioner -/

lemma sum_ite_lt (P m : Nat) (h : m ≤ P) :
    (∑ j ∈ Finset.range P, (if j < m then 1 else 0)) = m := by
  induction P with
  | zero =>
    simp only [Finset.range_zero, Finset.sum_empty]
    omega
  | succ P ih =>
    rw [Finset.sum_range_succ]
    rcases Nat.lt_or_ge P m with hm | hm
    · have hmP : m = P + 1 := by omega
      subst hmP
      have hall : (∑ j ∈ Finset.range P, (if j < P + 1 then 1 else 0))
          = ∑ _j ∈ Finset.range P, 1 := by
        refine Finset.sum_congr rfl ?_
        intro j hj
        simp only [Finset.mem_range] at hj
        simp [Nat.lt_succ_of_lt hj]
      simp [hall]
    · rw [ih hm]
      simp [Nat.not_lt.mpr hm]

/-- The parts of the partition of `N` into `P` parts sum exactly to `N`. -/
lemma partition_sum (N P : Nat) (hP : 1 ≤ P) :
    (∑ j ∈ Finset.range P, getPartitionedIntegerPartAtIndex N P j) = N := by
  unfold getPartitionedIntegerPartAtIndex
  rw [Finset.sum_add_distrib, Finset.sum_const, Finset.card_range, smul_eq_mul]
  rw [sum_ite_lt P (N % P) (Nat.le_of_lt (Nat.mod_lt N hP))]
  exact Nat.div_add_mod N P

/-- Rotating the index by a constant offset does not change a sum over `range k`. -/
lemma sum_range_rotate (k r : Nat) (f : Nat → Nat) :
    (∑ i ∈ Finset.range k, f ((i + r) % k)) = ∑ j ∈ Finset.range k, f j := by
  match k with
  | 0 => simp
  | (n + 1) =>
    rw [← Fin.sum_univ_eq_sum_range (fun j => f j) (n + 1),
      ← Fin.sum_univ_eq_sum_range (fun i => f ((i + r) % (n + 1))) (n + 1)]
    refine Fintype.sum_equiv (Equiv.addRight (r : Fin (n + 1))) _ _ ?_
    intro x
    congr 1
    simp only [Equiv.coe_addRight]
    rw [Fin.add_def, Fin.val_natCast]
    conv_lhs => rw [Nat.add_mod]
    rw [Nat.mod_eq_of_lt x.isLt]

/-- Splitting a sum over `range (a + b)` at `a`. -/
lemma sum_range_add_split (h : Nat → Nat) (a b : Nat) :
    (∑ j ∈ Finset.range (a + b), h j)
      = (∑ j ∈ Finset.range a, h j) + ∑ j ∈ Finset.range b, h (a + j) := by
  induction b with
  | zero => simp
  | succ b ih =>
    have : a + (b + 1) = (a + b) + 1 := by omega
    rw [this, Finset.sum_range_succ, ih, Finset.sum_range_succ]
    omega

/-- A sum over `range (a * T)` decomposed into `a` blocks of length `T`. -/
lemma sum_range_blocks (h : Nat → Nat) (a T : Nat) :
    (∑ j ∈ Finset.range (a * T), h j)
      = ∑ s ∈ Finset.range a, ∑ t ∈ Finset.range T, h (s * T + t) := by
  induction a with
  | zero => simp
  | succ a ih =>
    have : (a + 1) * T = a * T + T := by ring
    rw [this, sum_range_add_split, ih, Finset.sum_range_succ]

/-- JS `Math.ceil(a / b)` on non-negative integers with `b ≥ 1`. -/
def ceilDivJS (a b : Nat) : Nat := (a + b - 1) / b

lemma le_mul_ceilDivJS (a b : Nat) (hb : 1 ≤ b) : a ≤ b * ceilDivJS a b := by
  unfold ceilDivJS
  have h1 := Nat.div_add_mod (a + b - 1) b
  have h2 := Nat.mod_lt (a + b - 1) (show 0 < b by omega)
  omega

lemma block_index_div (s t T : Nat) (ht : t < T) : (s * T + t) / T = s := by
  have hT : 0 < T := by omega
  rw [Nat.add_comm, Nat.add_mul_div_right t s hT, Nat.div_eq_of_lt ht]
  omega

lemma block_index_mod (s t T : Nat) (ht : t < T) : (s * T + t) % T = t := by
  rw [Nat.add_comm, Nat.add_mul_mod_self_right, Nat.mod_eq_of_lt ht]

/-! ## The per-stream throttle (plain variant, `BandwidthThrottle`)

State fields mirror the source one-to-one; `written` and `emitted` are ghost
accumulators recording every byte appended by the producer and every byte
pushed downstream, and `destroyed` records that the throttle has signalled
`handleRequestDestroy` (the source has no explicit flag: destruction lives in
the stream controller, which we abstract). -/

/-- A callback a throttle fires at its parent group
(`handleRequestStart` / `handleRequestStop` / `handleRequestDestroy`). -/
inductive GroupSignal
  | start
  | stop
  | destroyReq
deriving DecidableEq, Repr

structure ThrottleState where
  buffer : List Nat
  pendingBytesCount : Nat
  pendingBytesReadIndex : Nat
  pendingBytesBufferExpandedFactor : Nat
  pendingBytesBufferExpandedSize : Nat
  isDataBeingWritten : Bool
  doneResolved : Bool
  destroyed : Bool
  written : List Nat
  emitted : List Nat
deriving DecidableEq, Repr

/-- Constructor state: `pendingBytesBufferExpandedSize = bytesPerSecond * 1`,
a zero-filled buffer of that size, all counters zero. -/
def ThrottleState.init (cfg : Config) : ThrottleState where
  buffer := List.replicate cfg.bytesPerSecond 0
  pendingBytesCount := 0
  pendingBytesReadIndex := 0
  pendingBytesBufferExpandedFactor := 1
  pendingBytesBufferExpandedSize := cfg.bytesPerSecond
  isDataBeingWritten := false
  doneResolved := false
  destroyed := false
  written := []
  emitted := []

/-- The source's `ClampNum(number, min, max) = Math.max(min, Math.min(number, max))`. -/
def ClampNum (number lo hi : Int) : Int := max lo (min number hi)

/-- `Uint8Array.prototype.subarray(b, e)` as a list operation. -/
def subarray (buf : List Nat) (b e : Nat) : List Nat := (buf.drop b).take (e - b)

/-- `Uint8Array.prototype.set(chunk, offset)` as a list operation. -/
def listSet (buf : List Nat) (offset : Nat) (chunk : List Nat) : List Nat :=
  buf.take offset ++ chunk ++ buf.drop (offset + chunk.length)

/-- The unemitted region `[readIndex, pendingCount)` of the pending buffer. -/
def pendingSlice (s : ThrottleState) : List Nat :=
  subarray s.buffer s.pendingBytesReadIndex s.pendingBytesCount

/-- `BandwidthThrottle.trim_buffer`: transfers the unemitted region to offset 0
of a fresh buffer of the current expanded size; the transferred length is
clamped against `maxBufferSize` (only this variant clamps). -/
def trimBuffer (cfg : Config) (s : ThrottleState) : ThrottleState :=
  let transferBufferLength :=
    (ClampNum ((s.pendingBytesCount : Int) - (s.pendingBytesReadIndex : Int)) 0
      (cfg.maxBufferSize : Int)).toNat
  let transferredBuffer := subarray s.buffer s.pendingBytesReadIndex s.pendingBytesCount
  { s with
    buffer := listSet (List.replicate s.pendingBytesBufferExpandedSize 0) 0 transferredBuffer
    pendingBytesReadIndex := 0
    pendingBytesCount := transferBufferLength }

/-- `BandwidthThrottle.process(maxBytesToProcess)`: emit up to `maxBytesToProcess`
bytes (`none` models the `Infinity` default), trim, then run the completion
test. Returns the new state, the emitted count, and the group callbacks fired. -/
def process (cfg : Config) (maxBytesToProcess : Option Nat) (s : ThrottleState) :
    ThrottleState × Nat × List GroupSignal :=
  let startReadIndex := s.pendingBytesReadIndex
  let endReadIndex :=
    match maxBytesToProcess with
    | none => s.pendingBytesCount
    | some m => min (s.pendingBytesReadIndex + m) s.pendingBytesCount
  let bytesToPushLength := endReadIndex - startReadIndex
  let s1 :=
    if 0 < bytesToPushLength then
      let bytesToPush := subarray s.buffer startReadIndex endReadIndex
      trimBuffer cfg
        { s with
          pendingBytesReadIndex := endReadIndex
          emitted := s.emitted ++ bytesToPush }
    else s
  if s1.pendingBytesReadIndex < s1.pendingBytesCount || s1.isDataBeingWritten
      || !cfg.isThrottled then
    (s1, bytesToPushLength, [])
  else
    ({ s1 with doneResolved := true, destroyed := true },
      bytesToPushLength, [GroupSignal.stop, GroupSignal.destroyReq])

/-- Appending a chunk: `pendingBytesBuffer.set(chunk, pendingBytesCount)` followed
by `pendingBytesCount += chunk.length`. -/
def appendChunk (s : ThrottleState) (chunk : List Nat) : ThrottleState :=
  { s with
    buffer := listSet s.buffer s.pendingBytesCount chunk
    pendingBytesCount := s.pendingBytesCount + chunk.length
    written := s.written ++ chunk }

/-- Tail of `BandwidthThrottle.transform`: with throttling disabled the queue is
processed immediately (`if (!this.config.isThrottled) this.process()`). -/
def maybeProcessUnthrottled (cfg : Config) (s : ThrottleState) :
    ThrottleState × List GroupSignal :=
  if !cfg.isThrottled then
    let r := process cfg none s
    (r.1, r.2.2)
  else (s, [])

/-- Body of `BandwidthThrottle.transform(chunk)` after the first-chunk check:
if the chunk does not fit the expanded buffer the throttle compacts (and,
below `maxBufferSize`, regrows) the buffer, or — when even `maxBufferSize`
would be exceeded — signals `handleRequestDestroy` and appends nothing. -/
def transformBody (cfg : Config) (chunk : List Nat) (s0 : ThrottleState) :
    ThrottleState × List GroupSignal :=
  if s0.pendingBytesBufferExpandedSize < chunk.length + s0.pendingBytesCount then
    let remainingContentInBufferLength :=
      s0.pendingBytesCount - s0.pendingBytesReadIndex
    if chunk.length + remainingContentInBufferLength ≤ cfg.maxBufferSize then
      let s1 :=
        if s0.pendingBytesBufferExpandedSize < cfg.maxBufferSize then
          let factor :=
            ceilDivJS (chunk.length + remainingContentInBufferLength)
              cfg.bytesPerSecond
          let size :=
            if cfg.maxBufferSize < cfg.bytesPerSecond * factor then cfg.maxBufferSize
            else cfg.bytesPerSecond * factor
          { s0 with
            pendingBytesBufferExpandedFactor := factor
            pendingBytesBufferExpandedSize := size }
        else s0
      let s2 := appendChunk (trimBuffer cfg s1) chunk
      maybeProcessUnthrottled cfg s2
    else
      ({ s0 with destroyed := true }, [GroupSignal.destroyReq])
  else
    let s2 := appendChunk s0 chunk
    maybeProcessUnthrottled cfg s2

/-- `BandwidthThrottle.transform(chunk)`: the first producer chunk signals
`handleRequestStart` and marks the producer active, then the buffering body
runs. -/
def transform (cfg : Config) (chunk : List Nat) (s : ThrottleState) :
    ThrottleState × List GroupSignal :=
  let started := !s.isDataBeingWritten
  let s0 := if started then { s with isDataBeingWritten := true } else s
  let sigs0 := if started then [GroupSignal.start] else []
  let r := transformBody cfg chunk s0
  (r.1, sigs0 ++ r.2)

/-- What `BandwidthThrottle.flush` did before returning. -/
inductive FlushOutcome
  | immediate
  | stopDestroy
  | waitDone
deriving DecidableEq, Repr

/-- `BandwidthThrottle.flush()`: clears `isDataBeingWritten`; with an empty
pending queue it returns at once; unthrottled it signals stop and destroys;
otherwise it hands back the `done` promise. -/
def flush (cfg : Config) (s : ThrottleState) :
    ThrottleState × FlushOutcome × List GroupSignal :=
  let s0 := { s with isDataBeingWritten := false }
  if s0.pendingBytesCount = 0 then (s0, FlushOutcome.immediate, [])
  else if !cfg.isThrottled then
    ({ s0 with destroyed := true }, FlushOutcome.stopDestroy,
      [GroupSignal.stop, GroupSignal.destroyReq])
  else (s0, FlushOutcome.waitDone, [])

/-- `BandwidthThrottle.abort()`: stop, then destroy. -/
def abort (s : ThrottleState) : ThrottleState × List GroupSignal :=
  ({ s with destroyed := true }, [GroupSignal.stop, GroupSignal.destroyReq])

/-- `BandwidthThrottle.gracefulAbort()`: resolve `done`, stop, then destroy. -/
def gracefulAbort (s : ThrottleState) : ThrottleState × List GroupSignal :=
  ({ s with doneResolved := true, destroyed := true },
    [GroupSignal.stop, GroupSignal.destroyReq])

/-- One producer-side or clock-side operation on a throttle. -/
inductive ThrottleOp
  | write (chunk : List Nat)
  | proc (maxBytesToProcess : Option Nat)
  | flushEnd
deriving DecidableEq, Repr

def stepOp (cfg : Config) (s : ThrottleState) :
    ThrottleOp → ThrottleState × List GroupSignal
  | ThrottleOp.write chunk => transform cfg chunk s
  | ThrottleOp.proc m => let r := process cfg m s; (r.1, r.2.2)
  | ThrottleOp.flushEnd => let r := flush cfg s; (r.1, r.2.2)

/-- Run a sequence of operations on a live throttle; a destroyed throttle
accepts no further operations. -/
def runFrom (cfg : Config) (s : ThrottleState) : List ThrottleOp → Option ThrottleState
  | [] => some s
  | op :: ops =>
    if s.destroyed then none
    else runFrom cfg (stepOp cfg s op).1 ops

def runOps (cfg : Config) (ops : List ThrottleOp) : Option ThrottleState :=
  runFrom cfg (ThrottleState.init cfg) ops

/-- Structural well-formedness of a throttle state between operations. -/
def WellFormed (cfg : Config) (s : ThrottleState) : Prop :=
  s.pendingBytesReadIndex = 0 ∧
  s.buffer.length = s.pendingBytesBufferExpandedSize ∧
  s.pendingBytesCount ≤ s.pendingBytesBufferExpandedSize ∧
  s.pendingBytesBufferExpandedSize ≤ cfg.maxBufferSize

/-- Byte conservation: everything the producer appended is either already
emitted downstream or still sitting unemitted in the pending buffer. -/
def Accounted (s : ThrottleState) : Prop :=
  s.written = s.emitted ++ pendingSlice s

/-! ## Buffer lemmas -/

lemma listSet_length (buf chunk : List Nat) (off : Nat)
    (h : off + chunk.length ≤ buf.length) :
    (listSet buf off chunk).length = buf.length := by
  simp only [listSet, List.length_append, List.length_take, List.length_drop]
  omega

lemma subarray_length (buf : List Nat) (b e : Nat) (he : e ≤ buf.length) :
    (subarray buf b e).length = e - b := by
  simp only [subarray, List.length_take, List.length_drop]
  omega

lemma subarray_zero (buf : List Nat) (e : Nat) : subarray buf 0 e = buf.take e := by
  simp [subarray]

/-- Characterization of `trim_buffer` on states where the unemitted region is
consistent: it transfers exactly `pendingBytesCount - pendingBytesReadIndex`
bytes, in order, to the origin of a fresh buffer of the expanded size. -/
lemma trimBuffer_spec (cfg : Config) (t : ThrottleState)
    (hrc : t.pendingBytesReadIndex ≤ t.pendingBytesCount)
    (hcl : t.pendingBytesCount ≤ t.buffer.length)
    (hmax : t.pendingBytesCount - t.pendingBytesReadIndex ≤ cfg.maxBufferSize)
    (hsize : t.pendingBytesCount - t.pendingBytesReadIndex
      ≤ t.pendingBytesBufferExpandedSize) :
    (trimBuffer cfg t).pendingBytesCount
        = t.pendingBytesCount - t.pendingBytesReadIndex ∧
    (trimBuffer cfg t).pendingBytesReadIndex = 0 ∧
    (trimBuffer cfg t).buffer.length = t.pendingBytesBufferExpandedSize ∧
    pendingSlice (trimBuffer cfg t) = pendingSlice t := by
  have hclamp : (ClampNum ((t.pendingBytesCount : Int) - (t.pendingBytesReadIndex : Int))
      0 (cfg.maxBufferSize : Int)).toNat
      = t.pendingBytesCount - t.pendingBytesReadIndex := by
    unfold ClampNum
    rw [min_eq_left (by omega), max_eq_right (by omega)]
    omega
  have htlen : (subarray t.buffer t.pendingBytesReadIndex t.pendingBytesCount).length
      = t.pendingBytesCount - t.pendingBytesReadIndex :=
    subarray_length _ _ _ hcl
  have hbuf : (trimBuffer cfg t).buffer
      = subarray t.buffer t.pendingBytesReadIndex t.pendingBytesCount
        ++ (List.replicate t.pendingBytesBufferExpandedSize (0 : Nat)).drop
          (subarray t.buffer t.pendingBytesReadIndex t.pendingBytesCount).length := by
    simp [trimBuffer, listSet]
  refine ⟨by simp [trimBuffer, hclamp], by simp [trimBuffer], ?_, ?_⟩
  · rw [hbuf]
    simp only [List.length_append, List.length_drop, List.length_replicate, htlen]
    omega
  · show subarray (trimBuffer cfg t).buffer (trimBuffer cfg t).pendingBytesReadIndex
        (trimBuffer cfg t).pendingBytesCount = pendingSlice t
    have hidx : (trimBuffer cfg t).pendingBytesReadIndex = 0 := by simp [trimBuffer]
    have hcnt : (trimBuffer cfg t).pendingBytesCount
        = t.pendingBytesCount - t.pendingBytesReadIndex := by simp [trimBuffer, hclamp]
    rw [hidx, hcnt, subarray_zero, hbuf]
    rw [← htlen, List.take_left]
    rfl

/-- Characterization of a chunk append at the write offset. -/
lemma appendChunk_spec (s : ThrottleState) (chunk : List Nat)
    (h0 : s.pendingBytesReadIndex = 0)
    (hfit : s.pendingBytesCount + chunk.length ≤ s.buffer.length) :
    (appendChunk s chunk).buffer.length = s.buffer.length ∧
    (appendChunk s chunk).pendingBytesCount = s.pendingBytesCount + chunk.length ∧
    pendingSlice (appendChunk s chunk) = pendingSlice s ++ chunk ∧
    (appendChunk s chunk).written = s.written ++ chunk := by
  have hlenA : (s.buffer.take s.pendingBytesCount).length = s.pendingBytesCount := by
    simp only [List.length_take]
    omega
  refine ⟨listSet_length _ _ _ (by omega), by simp [appendChunk], ?_, by simp [appendChunk]⟩
  show subarray (appendChunk s chunk).buffer (appendChunk s chunk).pendingBytesReadIndex
      (appendChunk s chunk).pendingBytesCount = pendingSlice s ++ chunk
  have hidx : (appendChunk s chunk).pendingBytesReadIndex = s.pendingBytesReadIndex := by
    simp [appendChunk]
  rw [hidx, h0]
  have hcnt : (appendChunk s chunk).pendingBytesCount
      = s.pendingBytesCount + chunk.length := by simp [appendChunk]
  rw [hcnt, subarray_zero]
  have hbuf : (appendChunk s chunk).buffer
      = (s.buffer.take s.pendingBytesCount ++ chunk)
        ++ s.buffer.drop (s.pendingBytesCount + chunk.length) := by
    simp [appendChunk, listSet]
  rw [hbuf]
  have hlenAB : (s.buffer.take s.pendingBytesCount ++ chunk).length
      = s.pendingBytesCount + chunk.length := by
    simp only [List.length_append, hlenA]
  rw [← hlenAB, List.take_left]
  unfold pendingSlice
  rw [h0, subarray_zero]

lemma trimBuffer_frame (cfg : Config) (t : ThrottleState) :
    (trimBuffer cfg t).emitted = t.emitted ∧
    (trimBuffer cfg t).written = t.written ∧
    (trimBuffer cfg t).isDataBeingWritten = t.isDataBeingWritten ∧
    (trimBuffer cfg t).doneResolved = t.doneResolved ∧
    (trimBuffer cfg t).destroyed = t.destroyed ∧
    (trimBuffer cfg t).pendingBytesBufferExpandedSize = t.pendingBytesBufferExpandedSize ∧
    (trimBuffer cfg t).pendingBytesBufferExpandedFactor
      = t.pendingBytesBufferExpandedFactor := by
  simp [trimBuffer]

/-- Full characterization of `process` on a well-formed state, for an explicit
byte budget `q`: it emits exactly `min q pendingBytesCount` bytes, those bytes
are the next unemitted ones in order, and the trimmed state retains the rest;
while the producer is writing, no completion is signalled. -/
lemma process_char_some (cfg : Config) (q : Nat) (s : ThrottleState)
    (hWF : WellFormed cfg s) :
    (process cfg (some q) s).2.1 = min q s.pendingBytesCount ∧
    (process cfg (some q) s).1.pendingBytesReadIndex = 0 ∧
    (process cfg (some q) s).1.pendingBytesCount
      = s.pendingBytesCount - min q s.pendingBytesCount ∧
    (process cfg (some q) s).1.pendingBytesBufferExpandedSize
      = s.pendingBytesBufferExpandedSize ∧
    (process cfg (some q) s).1.pendingBytesBufferExpandedFactor
      = s.pendingBytesBufferExpandedFactor ∧
    (process cfg (some q) s).1.buffer.length = s.buffer.length ∧
    (process cfg (some q) s).1.isDataBeingWritten = s.isDataBeingWritten ∧
    (process cfg (some q) s).1.written = s.written ∧
    (process cfg (some q) s).1.emitted
      = s.emitted ++ (pendingSlice s).take (min q s.pendingBytesCount) ∧
    pendingSlice (process cfg (some q) s).1
      = (pendingSlice s).drop (min q s.pendingBytesCount) ∧
    (s.isDataBeingWritten = true →
      (process cfg (some q) s).1.destroyed = s.destroyed ∧
      (process cfg (some q) s).1.doneResolved = s.doneResolved ∧
      (process cfg (some q) s).2.2 = []) := by
  obtain ⟨h0, hlen, hc, hmax⟩ := hWF
  have hnc : min q s.pendingBytesCount ≤ s.pendingBytesCount := Nat.min_le_right _ _
  have hps : pendingSlice s = s.buffer.take s.pendingBytesCount := by
    unfold pendingSlice
    rw [h0, subarray_zero]
  simp only [process, h0, Nat.zero_add, Nat.sub_zero]
  by_cases hpos : 0 < min q s.pendingBytesCount
  · rw [if_pos hpos]
    have hspec := trimBuffer_spec cfg
      { s with
        pendingBytesReadIndex := min q s.pendingBytesCount
        emitted := s.emitted ++ subarray s.buffer 0 (min q s.pendingBytesCount) }
      (by dsimp only; omega) (by dsimp only; omega) (by dsimp only; omega)
      (by dsimp only; omega)
    have hframe := trimBuffer_frame cfg
      { s with
        pendingBytesReadIndex := min q s.pendingBytesCount
        emitted := s.emitted ++ subarray s.buffer 0 (min q s.pendingBytesCount) }
    dsimp only at hspec hframe
    obtain ⟨hcnt, hidx, hblen, hslice⟩ := hspec
    obtain ⟨hem, hwr, hidw, hdn, hds, hsz, hfc⟩ := hframe
    have htaken : subarray s.buffer 0 (min q s.pendingBytesCount)
        = (pendingSlice s).take (min q s.pendingBytesCount) := by
      rw [subarray_zero, hps, List.take_take, min_eq_left hnc]
    have hem2 : (trimBuffer cfg
        { s with
          pendingBytesReadIndex := min q s.pendingBytesCount
          emitted := s.emitted ++ subarray s.buffer 0 (min q s.pendingBytesCount) }).emitted
        = s.emitted ++ (pendingSlice s).take (min q s.pendingBytesCount) := by
      rw [hem, htaken]
    have hslice2 : pendingSlice
        { s with
          pendingBytesReadIndex := min q s.pendingBytesCount
          emitted := s.emitted ++ subarray s.buffer 0 (min q s.pendingBytesCount) }
        = (pendingSlice s).drop (min q s.pendingBytesCount) := by
      show subarray s.buffer (min q s.pendingBytesCount) s.pendingBytesCount
          = (pendingSlice s).drop (min q s.pendingBytesCount)
      rw [hps, List.drop_take]
      rfl
    rw [hslice2] at hslice
    have hblen2 : (trimBuffer cfg
        { s with
          pendingBytesReadIndex := min q s.pendingBytesCount
          emitted := s.emitted ++ subarray s.buffer 0 (min q s.pendingBytesCount) }).buffer.length
        = s.buffer.length := by
      rw [hblen, hlen]
    by_cases hdone : ((trimBuffer cfg
        { s with
          pendingBytesReadIndex := min q s.pendingBytesCount
          emitted := s.emitted ++ subarray s.buffer 0 (min q s.pendingBytesCount) }).pendingBytesReadIndex
          < (trimBuffer cfg
            { s with
              pendingBytesReadIndex := min q s.pendingBytesCount
              emitted := s.emitted ++ subarray s.buffer 0 (min q s.pendingBytesCount) }).pendingBytesCount
        || (trimBuffer cfg
            { s with
              pendingBytesReadIndex := min q s.pendingBytesCount
              emitted := s.emitted ++ subarray s.buffer 0 (min q s.pendingBytesCount) }).isDataBeingWritten
        || !cfg.isThrottled) = true
    · rw [if_pos hdone]
      exact ⟨rfl, hidx, by rw [hcnt], hsz, hfc, hblen2, hidw, hwr, hem2, hslice,
        fun _ => ⟨hds, hdn, rfl⟩⟩
    · rw [if_neg hdone]
      refine ⟨rfl, hidx, by rw [hcnt], hsz, hfc, hblen2, hidw, hwr, hem2, hslice, ?_⟩
      intro hw
      simp only [Bool.or_eq_true, Bool.not_eq_true', not_or] at hdone
      exact absurd (hidw.trans hw) hdone.1.2
  · rw [if_neg hpos]
    have hz : min q s.pendingBytesCount = 0 := by omega
    by_cases hdone : (s.pendingBytesReadIndex < s.pendingBytesCount
        || s.isDataBeingWritten || !cfg.isThrottled) = true
    · rw [if_pos hdone]
      refine ⟨rfl, h0, ?_, rfl, rfl, rfl, rfl, rfl, ?_, ?_, fun _ => ⟨rfl, rfl, rfl⟩⟩
      · show s.pendingBytesCount = s.pendingBytesCount - min q s.pendingBytesCount
        omega
      · show s.emitted = s.emitted ++ (pendingSlice s).take (min q s.pendingBytesCount)
        rw [hz]
        simp
      · show pendingSlice s = (pendingSlice s).drop (min q s.pendingBytesCount)
        rw [hz]
        simp
    · rw [if_neg hdone]
      refine ⟨rfl, h0, ?_, rfl, rfl, rfl, rfl, rfl, ?_, ?_, ?_⟩
      · show s.pendingBytesCount = s.pendingBytesCount - min q s.pendingBytesCount
        omega
      · show s.emitted = s.emitted ++ (pendingSlice s).take (min q s.pendingBytesCount)
        rw [hz]
        simp
      · show pendingSlice s = (pendingSlice s).drop (min q s.pendingBytesCount)
        rw [hz]
        simp
      · intro hw
        simp only [Bool.or_eq_true, Bool.not_eq_true', not_or] at hdone
        exact absurd hw hdone.1.2

/-- The `Infinity` default of `process` coincides with an explicit budget of
`pendingBytesCount` on states with the read index at the origin. -/
lemma process_none_eq (cfg : Config) (s : ThrottleState)
    (h0 : s.pendingBytesReadIndex = 0) :
    process cfg none s = process cfg (some s.pendingBytesCount) s := by
  simp only [process, h0, Nat.zero_add, Nat.min_self]

/-- `process` preserves well-formedness and byte conservation. -/
lemma process_some_preserves (cfg : Config) (q : Nat) (s : ThrottleState)
    (hWF : WellFormed cfg s) (hAcc : Accounted s) :
    WellFormed cfg (process cfg (some q) s).1 ∧ Accounted (process cfg (some q) s).1 := by
  obtain ⟨hemit, hidx, hcnt, hsz, hfc, hblen, hidw, hwr, hem, hslice, hflag⟩ :=
    process_char_some cfg q s hWF
  obtain ⟨h0, hlen, hc, hmax⟩ := hWF
  refine ⟨⟨hidx, by rw [hblen, hlen, hsz], by rw [hcnt, hsz]; omega, by rw [hsz]; exact hmax⟩, ?_⟩
  unfold Accounted at hAcc ⊢
  rw [hwr, hem, hslice, List.append_assoc, List.take_append_drop]
  exact hAcc

lemma process_none_preserves (cfg : Config) (s : ThrottleState)
    (hWF : WellFormed cfg s) (hAcc : Accounted s) :
    WellFormed cfg (process cfg none s).1 ∧ Accounted (process cfg none s).1 := by
  rw [process_none_eq cfg s hWF.1]
  exact process_some_preserves cfg s.pendingBytesCount s hWF hAcc

lemma maybeProcessUnthrottled_preserves (cfg : Config) (s : ThrottleState)
    (hWF : WellFormed cfg s) (hAcc : Accounted s) :
    WellFormed cfg (maybeProcessUnthrottled cfg s).1
      ∧ Accounted (maybeProcessUnthrottled cfg s).1 := by
  unfold maybeProcessUnthrottled
  by_cases ht : cfg.isThrottled
  · rw [ht]
    exact ⟨hWF, hAcc⟩
  · simp only [Bool.not_eq_true] at ht
    rw [ht]
    simp only [Bool.not_false, if_pos]
    exact process_none_preserves cfg s hWF hAcc

/-- The append performed after a (possible) grow-and-trim step preserves the
invariants, provided the chunk fits. -/
lemma appendChunk_preserves (cfg : Config) (s : ThrottleState) (chunk : List Nat)
    (hWF : WellFormed cfg s) (hAcc : Accounted s)
    (hfit : s.pendingBytesCount + chunk.length ≤ s.pendingBytesBufferExpandedSize) :
    WellFormed cfg (appendChunk s chunk) ∧ Accounted (appendChunk s chunk) := by
  obtain ⟨h0, hlen, hc, hmax⟩ := hWF
  obtain ⟨hblen, hcnt, hslice, hwr⟩ :=
    appendChunk_spec s chunk h0 (by rw [hlen]; exact hfit)
  constructor
  · refine ⟨by simp [appendChunk, h0], ?_, ?_, ?_⟩
    · rw [hblen, hlen]
      simp [appendChunk]
    · rw [hcnt]
      simpa [appendChunk] using hfit
    · simpa [appendChunk] using hmax
  · unfold Accounted at hAcc ⊢
    rw [hwr, hslice, hAcc]
    simp [appendChunk, List.append_assoc]

/-- The buffering body of the write path preserves the invariants. -/
lemma transformBody_preserves (cfg : Config) (chunk : List Nat) (s0 : ThrottleState)
    (hB : 1 ≤ cfg.bytesPerSecond)
    (hWF : WellFormed cfg s0) (hAcc : Accounted s0) :
    WellFormed cfg (transformBody cfg chunk s0).1
      ∧ Accounted (transformBody cfg chunk s0).1 := by
  obtain ⟨h0, hlen, hc, hmax⟩ := hWF
  unfold transformBody
  by_cases houter : s0.pendingBytesBufferExpandedSize
      < chunk.length + s0.pendingBytesCount
  · rw [if_pos houter]
    by_cases hguard : chunk.length
        + (s0.pendingBytesCount - s0.pendingBytesReadIndex) ≤ cfg.maxBufferSize
    · rw [if_pos hguard]
      rw [h0, Nat.sub_zero] at hguard
      -- the (possibly) resized state
      set s1 := if s0.pendingBytesBufferExpandedSize < cfg.maxBufferSize then
          { s0 with
            pendingBytesBufferExpandedFactor :=
              ceilDivJS (chunk.length + (s0.pendingBytesCount - s0.pendingBytesReadIndex))
                cfg.bytesPerSecond
            pendingBytesBufferExpandedSize :=
              if cfg.maxBufferSize < cfg.bytesPerSecond *
                  ceilDivJS (chunk.length + (s0.pendingBytesCount - s0.pendingBytesReadIndex))
                    cfg.bytesPerSecond
              then cfg.maxBufferSize
              else cfg.bytesPerSecond *
                ceilDivJS (chunk.length + (s0.pendingBytesCount - s0.pendingBytesReadIndex))
                  cfg.bytesPerSecond }
        else s0 with hs1
      have hs1buf : s1.buffer = s0.buffer := by
        rw [hs1]
        split <;> rfl
      have hs1cnt : s1.pendingBytesCount = s0.pendingBytesCount := by
        rw [hs1]
        split <;> rfl
      have hs1idx : s1.pendingBytesReadIndex = 0 := by
        rw [hs1]
        split <;> simpa using h0
      have hs1em : s1.emitted = s0.emitted := by
        rw [hs1]
        split <;> rfl
      have hs1wr : s1.written = s0.written := by
        rw [hs1]
        split <;> rfl
      have hs1szmax : s1.pendingBytesBufferExpandedSize ≤ cfg.maxBufferSize := by
        rw [hs1]
        split
        · dsimp only
          split
          · exact Nat.le_refl _
          · omega
        · exact hmax
      have hs1fit : chunk.length + s0.pendingBytesCount
          ≤ s1.pendingBytesBufferExpandedSize := by
        rw [hs1]
        split
        · dsimp only
          rw [h0, Nat.sub_zero]
          split
          · exact hguard
          · have := le_mul_ceilDivJS (chunk.length + s0.pendingBytesCount)
              cfg.bytesPerSecond hB
            omega
        · omega
      have htrim := trimBuffer_spec cfg s1
        (by rw [hs1idx]; omega)
        (by rw [hs1cnt, hs1buf, hlen]; exact hc)
        (by rw [hs1cnt, hs1idx]; omega)
        (by rw [hs1cnt, hs1idx, Nat.sub_zero]; omega)
      obtain ⟨htc, hti, htl, hts⟩ := htrim
      obtain ⟨htem, htwr, _, _, _, htsz, _⟩ := trimBuffer_frame cfg s1
      have hAcc1 : Accounted (trimBuffer cfg s1) := by
        unfold Accounted at hAcc ⊢
        rw [htwr, hts, htem, hs1wr, hs1em]
        show s0.written = s0.emitted ++ pendingSlice s1
        have : pendingSlice s1 = pendingSlice s0 := by
          unfold pendingSlice
          rw [hs1buf, hs1cnt, hs1idx, h0]
        rw [this]
        exact hAcc
      have hWF1 : WellFormed cfg (trimBuffer cfg s1) := by
        refine ⟨hti, by rw [htl, htsz], ?_, by rw [htsz]; exact hs1szmax⟩
        rw [htc, htsz, hs1cnt, hs1idx]
        omega
      have hfit2 : (trimBuffer cfg s1).pendingBytesCount + chunk.length
          ≤ (trimBuffer cfg s1).pendingBytesBufferExpandedSize := by
        rw [htc, htsz, hs1cnt, hs1idx, Nat.sub_zero]
        omega
      obtain ⟨hWF2, hAcc2⟩ :=
        appendChunk_preserves cfg (trimBuffer cfg s1) chunk hWF1 hAcc1 hfit2
      exact maybeProcessUnthrottled_preserves cfg _ hWF2 hAcc2
    · rw [if_neg hguard]
      refine ⟨⟨by simpa using h0, by simpa using hlen, by simpa using hc,
        by simpa using hmax⟩, ?_⟩
      unfold Accounted at hAcc ⊢
      show s0.written = s0.emitted ++ pendingSlice { s0 with destroyed := true }
      have : pendingSlice { s0 with destroyed := true } = pendingSlice s0 := rfl
      rw [this]
      exact hAcc
  · rw [if_neg houter]
    obtain ⟨hWF2, hAcc2⟩ := appendChunk_preserves cfg s0 chunk ⟨h0, hlen, hc, hmax⟩ hAcc
      (by omega)
    exact maybeProcessUnthrottled_preserves cfg _ hWF2 hAcc2

/-- The write path (`transform`) preserves the invariants. -/
lemma transform_preserves (cfg : Config) (chunk : List Nat) (s : ThrottleState)
    (hB : 1 ≤ cfg.bytesPerSecond)
    (hWF : WellFormed cfg s) (hAcc : Accounted s) :
    WellFormed cfg (transform cfg chunk s).1 ∧ Accounted (transform cfg chunk s).1 := by
  unfold transform
  by_cases hst : s.isDataBeingWritten
  · simp only [hst, Bool.not_true, if_neg (by simp : ¬ (false = true))]
    exact transformBody_preserves cfg chunk s hB hWF hAcc
  · simp only [Bool.not_eq_true] at hst
    simp only [hst, Bool.not_false, if_pos]
    refine transformBody_preserves cfg chunk _ hB
      ⟨hWF.1, hWF.2.1, hWF.2.2.1, hWF.2.2.2⟩ ?_
    unfold Accounted at hAcc ⊢
    exact hAcc

/-- `flush` preserves the invariants. -/
lemma flush_preserves (cfg : Config) (s : ThrottleState)
    (hWF : WellFormed cfg s) (hAcc : Accounted s) :
    WellFormed cfg (flush cfg s).1 ∧ Accounted (flush cfg s).1 := by
  obtain ⟨h0, hlen, hc, hmax⟩ := hWF
  unfold flush
  dsimp only
  by_cases hz : s.pendingBytesCount = 0
  · rw [if_pos hz]
    exact ⟨⟨h0, hlen, hc, hmax⟩, hAcc⟩
  · rw [if_neg hz]
    by_cases ht : (!cfg.isThrottled) = true
    · rw [if_pos ht]
      exact ⟨⟨h0, hlen, hc, hmax⟩, hAcc⟩
    · rw [if_neg ht]
      exact ⟨⟨h0, hlen, hc, hmax⟩, hAcc⟩

/-- Invariants are preserved along any run of operations on a live throttle. -/
lemma runFrom_preserves (cfg : Config) (hB : 1 ≤ cfg.bytesPerSecond) :
    ∀ (ops : List ThrottleOp) (s : ThrottleState), WellFormed cfg s → Accounted s →
      ∀ t, runFrom cfg s ops = some t → WellFormed cfg t ∧ Accounted t := by
  intro ops
  induction ops with
  | nil =>
    intro s hW hA t h
    unfold runFrom at h
    cases h
    exact ⟨hW, hA⟩
  | cons op ops ih =>
    intro s hW hA t h
    unfold runFrom at h
    by_cases hd : s.destroyed
    · rw [if_pos hd] at h
      cases h
    · rw [if_neg hd] at h
      refine ih (stepOp cfg s op).1 ?_ ?_ t h <;>
        cases op with
        | write chunk =>
          first
          | exact (transform_preserves cfg chunk s hB hW hA).1
          | exact (transform_preserves cfg chunk s hB hW hA).2
        | proc m =>
          cases m with
          | none =>
            first
            | exact (process_none_preserves cfg s hW hA).1
            | exact (process_none_preserves cfg s hW hA).2
          | some q =>
            first
            | exact (process_some_preserves cfg q s hW hA).1
            | exact (process_some_preserves cfg q s hW hA).2
        | flushEnd =>
          first
          | exact (flush_preserves cfg s hW hA).1
          | exact (flush_preserves cfg s hW hA).2

lemma init_wellFormed (cfg : Config) (hBM : cfg.bytesPerSecond ≤ cfg.maxBufferSize) :
    WellFormed cfg (ThrottleState.init cfg) := by
  refine ⟨rfl, by simp [ThrottleState.init], by simp [ThrottleState.init], hBM⟩

lemma init_accounted (cfg : Config) : Accounted (ThrottleState.init cfg) := by
  unfold Accounted pendingSlice subarray
  simp [ThrottleState.init]

/-- C3: Under any interleaving of producer writes, `process` calls and `flush`
on a throttle with a valid configuration, the bytes written by the producer
are exactly the bytes emitted downstream followed by the unemitted bytes of
the pending buffer, in order; and every buffer compaction transfers exactly
`pendingBytesCount - pendingBytesReadIndex` unemitted bytes, preserving them
in order. -/
theorem producer_bytes_conserved (cfg : Config)
    (hB : 1 ≤ cfg.bytesPerSecond) (hBM : cfg.bytesPerSecond ≤ cfg.maxBufferSize) :
    (∀ ops s, runOps cfg ops = some s → s.written = s.emitted ++ pendingSlice s) ∧
    (∀ t : ThrottleState,
      t.pendingBytesReadIndex ≤ t.pendingBytesCount →
      t.pendingBytesCount ≤ t.buffer.length →
      t.pendingBytesCount - t.pendingBytesReadIndex ≤ cfg.maxBufferSize →
      t.pendingBytesCount - t.pendingBytesReadIndex ≤ t.pendingBytesBufferExpandedSize →
      (trimBuffer cfg t).pendingBytesCount
          = t.pendingBytesCount - t.pendingBytesReadIndex ∧
        pendingSlice (trimBuffer cfg t) = pendingSlice t) := by
  constructor
  · intro ops s h
    exact (runFrom_preserves cfg hB ops (ThrottleState.init cfg)
      (init_wellFormed cfg hBM) (init_accounted cfg) s h).2
  · intro t h1 h2 h3 h4
    obtain ⟨hc, _, _, hs⟩ := trimBuffer_spec cfg t h1 h2 h3 h4
    exact ⟨hc, hs⟩

def cfgC3 : Config := ⟨2, true, 1, 4⟩

def opsC3 : List ThrottleOp :=
  [ThrottleOp.write [5, 6, 7], ThrottleOp.proc (some 2), ThrottleOp.flushEnd]

def sC3 : ThrottleState := (runOps cfgC3 opsC3).getD (ThrottleState.init cfgC3)

theorem producer_bytes_conserved_witness :
    1 ≤ cfgC3.bytesPerSecond ∧ cfgC3.bytesPerSecond ≤ cfgC3.maxBufferSize ∧
    runOps cfgC3 opsC3 = some sC3 ∧
    sC3.written = sC3.emitted ++ pendingSlice sC3 :=
  ⟨by decide, by decide, by decide,
    (producer_bytes_conserved cfgC3 (by decide) (by decide)).1 opsC3 sC3 (by decide)⟩

/-- C2: the partitioner splits `N` into `P` non-negative parts that sum
exactly to `N`, each part is `⌊N/P⌋` or `⌊N/P⌋ + 1`, and exactly the first
`N mod P` indices receive the larger value. -/
theorem partitioner_exact (N P : Nat) (hP : 1 ≤ P) :
    (∀ i, 0 ≤ getPartitionedIntegerPartAtIndex N P i) ∧
    ((∑ i ∈ Finset.range P, getPartitionedIntegerPartAtIndex N P i) = N) ∧
    (∀ i, i < P → getPartitionedIntegerPartAtIndex N P i = N / P ∨
      getPartitionedIntegerPartAtIndex N P i = N / P + 1) ∧
    (∀ i, i < P →
      (getPartitionedIntegerPartAtIndex N P i = N / P + 1 ↔ i < N % P)) := by
  refine ⟨fun i => Nat.zero_le _, partition_sum N P hP, ?_, ?_⟩
  · intro i _
    unfold getPartitionedIntegerPartAtIndex
    by_cases hi : i < N % P
    · right
      rw [if_pos hi]
    · left
      rw [if_neg hi]
      omega
  · intro i _
    unfold getPartitionedIntegerPartAtIndex
    by_cases hi : i < N % P
    · rw [if_pos hi]
      omega
    · rw [if_neg hi]
      omega

theorem partitioner_exact_witness :
    1 ≤ 3 ∧
    ((∑ i ∈ Finset.range 3, getPartitionedIntegerPartAtIndex 7 3 i) = 7) ∧
    (getPartitionedIntegerPartAtIndex 7 3 0 = 7 / 3 + 1 ↔ 0 < 7 % 3) :=
  ⟨by decide, (partitioner_exact 7 3 (by decide)).2.1,
    (partitioner_exact 7 3 (by decide)).2.2.2 0 (by decide)⟩

/-! ## The group (`BandwidthThrottleGroup`)

The group's registries, clock handle and tick counters are embedded directly;
the periodic timer object is abstracted to `clockIntervalId : Option Unit`
(`some` while a timer is scheduled). Throttle callbacks arrive as events. -/

structure GroupState where
  bandwidthThrottles : List Nat
  inFlightRequests : List Nat
  clockIntervalId : Option Unit
  tickIndex : Nat
  secondIndex : Nat
  lastTickTime : Int
deriving DecidableEq, Repr

def GroupState.init : GroupState where
  bandwidthThrottles := []
  inFlightRequests := []
  clockIntervalId := none
  tickIndex := 0
  secondIndex := 0
  lastTickTime := -1

/-- JS `xs.splice(xs.indexOf(x), 1)`: removes the first occurrence when `x` is
present; otherwise `indexOf` returns `-1` and `splice(-1, 1)` removes the last
element. -/
def spliceRemove (xs : List Nat) (x : Nat) : List Nat :=
  if x ∈ xs then xs.erase x else xs.dropLast

def hasTicked (g : GroupState) : Bool := g.lastTickTime > -1

def isTicking (g : GroupState) : Bool := g.clockIntervalId ≠ none

/-- `BandwidthThrottleGroup.stopClock`. -/
def stopClock (g : GroupState) : GroupState :=
  { g with clockIntervalId := none, tickIndex := 0, secondIndex := 0, lastTickTime := -1 }

/-- `BandwidthThrottleGroup.handleRequestStart`. -/
def handleRequestStart (id : Nat) (g : GroupState) : GroupState :=
  let g1 := { g with inFlightRequests := g.inFlightRequests ++ [id] }
  if g1.clockIntervalId ≠ none then g1 else { g1 with clockIntervalId := some () }

/-- `BandwidthThrottleGroup.handleRequestStop`. -/
def handleRequestStop (id : Nat) (g : GroupState) : GroupState :=
  let g1 := { g with inFlightRequests := spliceRemove g.inFlightRequests id }
  if g1.inFlightRequests.length = 0 then stopClock g1 else g1

/-- `BandwidthThrottleGroup.handleRequestDestroy`. -/
def handleRequestDestroy (id : Nat) (g : GroupState) : GroupState :=
  { g with bandwidthThrottles := spliceRemove g.bandwidthThrottles id }

/-- `elapsedTime` as computed at the top of `processInFlightRequests`. -/
def elapsedTimeOf (g : GroupState) (now : Int) : Int :=
  if hasTicked g then now - g.lastTickTime else 0

/-- Steps 6-8 of `processInFlightRequests`: executed after the per-throttle
loop unless the clock was stopped during the loop. -/
def tickCounters (cfg : Config) (now : Int) (g : GroupState) : GroupState :=
  if isTicking g then
    let elapsedTime := elapsedTimeOf g now
    let g1 := { g with tickIndex := g.tickIndex + 1 }
    let g2 :=
      if g1.tickIndex = cfg.ticksPerSecond then
        { g1 with tickIndex := 0, secondIndex := g1.secondIndex + 1 }
      else g1
    { g2 with lastTickTime := if hasTicked g2 then g2.lastTickTime + elapsedTime else now }
  else g

/-- An event observed by the group: a throttle attach, a lifecycle callback
from a throttle, or the counter step at the end of an executed tick. -/
inductive GroupEvent
  | create (id : Nat)
  | start (id : Nat)
  | stop (id : Nat)
  | destroyReq (id : Nat)
  | tick (now : Int)
deriving DecidableEq, Repr

def applyGroupEvent (cfg : Config) (g : GroupState) : GroupEvent → GroupState
  | GroupEvent.create id => { g with bandwidthThrottles := g.bandwidthThrottles ++ [id] }
  | GroupEvent.start id => handleRequestStart id g
  | GroupEvent.stop id => handleRequestStop id g
  | GroupEvent.destroyReq id => handleRequestDestroy id g
  | GroupEvent.tick now => tickCounters cfg now g

def applyGroupEvents (cfg : Config) (evs : List GroupEvent) : GroupState :=
  evs.foldl (applyGroupEvent cfg) GroupState.init

/-- Apply the callbacks fired by throttle `id` to the group, in order. -/
def applySignals (id : Nat) (sigs : List GroupSignal) (g : GroupState) : GroupState :=
  sigs.foldl (fun g sig =>
    match sig with
    | GroupSignal.start => handleRequestStart id g
    | GroupSignal.stop => handleRequestStop id g
    | GroupSignal.destroyReq => handleRequestDestroy id g) g

/-- The clock-registry invariant of a group state. -/
def ClockInv (g : GroupState) : Prop :=
  g.inFlightRequests ≠ [] ↔ g.clockIntervalId ≠ none

lemma applyGroupEvent_clockInv (cfg : Config) (g : GroupState) (e : GroupEvent)
    (h : ClockInv g) : ClockInv (applyGroupEvent cfg g e) := by
  unfold ClockInv at h ⊢
  cases e with
  | create id => simpa [applyGroupEvent] using h
  | start id =>
    simp only [applyGroupEvent, handleRequestStart]
    by_cases hc : g.clockIntervalId ≠ none
    · rw [if_pos (by simpa using hc)]
      simpa using hc
    · rw [if_neg (by simpa using hc)]
      simp
  | stop id =>
    simp only [applyGroupEvent, handleRequestStop]
    by_cases hz : (spliceRemove g.inFlightRequests id).length = 0
    · rw [if_pos (by simpa using hz)]
      simp only [stopClock]
      constructor
      · intro hne
        exact absurd (List.length_eq_zero.mp hz) hne
      · intro hne
        exact absurd rfl hne
    · rw [if_neg (by simpa using hz)]
      simp only
      have hne : spliceRemove g.inFlightRequests id ≠ [] := by
        intro hcon
        rw [hcon] at hz
        exact hz rfl
      have horig : g.inFlightRequests ≠ [] := by
        intro hcon
        apply hne
        rw [hcon]
        unfold spliceRemove
        simp
      constructor
      · intro _
        exact h.mp horig
      · intro _
        exact hne
  | destroyReq id => simpa [applyGroupEvent, handleRequestDestroy] using h
  | tick now =>
    simp only [applyGroupEvent, tickCounters]
    by_cases ht : isTicking g = true
    · rw [if_pos ht]
      by_cases hw : g.tickIndex + 1 = cfg.ticksPerSecond
      · simp only [if_pos hw]
        simpa using h
      · simp only [if_neg hw]
        simpa using h
    · rw [if_neg ht]
      exact h

/-- C5: in every reachable group state, the in-flight list is nonempty exactly
when the clock interval handle is non-null; moreover `handleRequestStart`
starts a stopped clock, and `handleRequestStop` stops the clock when the
in-flight list empties. -/
theorem inFlight_nonempty_iff_clock (cfg : Config) (evs : List GroupEvent) :
    ((applyGroupEvents cfg evs).inFlightRequests ≠ []
      ↔ (applyGroupEvents cfg evs).clockIntervalId ≠ none) ∧
    (∀ g : GroupState, ∀ id, g.clockIntervalId = none →
      (handleRequestStart id g).clockIntervalId ≠ none) ∧
    (∀ g : GroupState, ∀ id, (handleRequestStop id g).inFlightRequests = [] →
      (handleRequestStop id g).clockIntervalId = none) := by
  refine ⟨?_, ?_, ?_⟩
  · suffices h : ∀ (l : List GroupEvent) (g : GroupState), ClockInv g →
        ClockInv (l.foldl (applyGroupEvent cfg) g) by
      exact h evs GroupState.init (by unfold ClockInv GroupState.init; simp)
    intro l
    induction l with
    | nil => intro g hg; exact hg
    | cons e l ih =>
      intro g hg
      exact ih (applyGroupEvent cfg g e) (applyGroupEvent_clockInv cfg g e hg)
  · intro g id hc
    unfold handleRequestStart
    rw [if_neg (by simp [hc])]
    simp
  · intro g id h
    unfold handleRequestStop at h ⊢
    by_cases hz : (spliceRemove g.inFlightRequests id).length = 0
    · rw [if_pos (by simpa using hz)]
      rfl
    · rw [if_neg (by simpa using hz)] at h
      simp only at h
      rw [h] at hz
      exact absurd rfl hz

theorem inFlight_nonempty_iff_clock_witness :
    ((applyGroupEvents ⟨100, true, 10, 1000⟩ [GroupEvent.create 0, GroupEvent.start 0,
        GroupEvent.tick 0, GroupEvent.stop 0]).inFlightRequests ≠ []
      ↔ (applyGroupEvents ⟨100, true, 10, 1000⟩ [GroupEvent.create 0, GroupEvent.start 0,
        GroupEvent.tick 0, GroupEvent.stop 0]).clockIntervalId ≠ none) ∧
    (GroupState.init.clockIntervalId = none ∧
      (handleRequestStart 0 GroupState.init).clockIntervalId ≠ none) :=
  ⟨(inFlight_nonempty_iff_clock ⟨100, true, 10, 1000⟩ _).1,
    ⟨rfl, (inFlight_nonempty_iff_clock ⟨100, true, 10, 1000⟩ []).2.1
      GroupState.init 0 rfl⟩⟩

/-- The reset invariant: whenever the clock handle is null, the scheduling
counters are at their initial values. -/
def ResetInv (g : GroupState) : Prop :=
  g.clockIntervalId = none →
    g.tickIndex = 0 ∧ g.secondIndex = 0 ∧ g.lastTickTime = -1

lemma applyGroupEvent_resetInv (cfg : Config) (g : GroupState) (e : GroupEvent)
    (h : ResetInv g) : ResetInv (applyGroupEvent cfg g e) := by
  unfold ResetInv at h ⊢
  cases e with
  | create id => simpa [applyGroupEvent] using h
  | start id =>
    simp only [applyGroupEvent, handleRequestStart]
    by_cases hc : g.clockIntervalId ≠ none
    · rw [if_pos (by simpa using hc)]
      intro hnone
      exact absurd hnone hc
    · rw [if_neg (by simpa using hc)]
      intro hnone
      cases hnone
  | stop id =>
    simp only [applyGroupEvent, handleRequestStop]
    by_cases hz : (spliceRemove g.inFlightRequests id).length = 0
    · rw [if_pos (by simpa using hz)]
      intro _
      exact ⟨rfl, rfl, rfl⟩
    · rw [if_neg (by simpa using hz)]
      intro hnone
      exact h hnone
  | destroyReq id => simpa [applyGroupEvent, handleRequestDestroy] using h
  | tick now =>
    simp only [applyGroupEvent, tickCounters]
    by_cases ht : isTicking g = true
    · rw [if_pos ht]
      unfold isTicking at ht
      simp only [ne_eq, decide_eq_true_eq] at ht
      by_cases hw : g.tickIndex + 1 = cfg.ticksPerSecond
      · simp only [if_pos hw]
        intro hnone
        exact absurd hnone ht
      · simp only [if_neg hw]
        intro hnone
        exact absurd hnone ht
    · rw [if_neg ht]
      exact h

/-- C10: in every reachable group state with the clock stopped, the scheduling
state is fully reset — null interval handle, `tickIndex = 0`,
`secondIndex = 0` (hence rotation offset 0), `lastTickTime = -1` — and a tick
executed from such a state computes an elapsed time of 0. -/
theorem stopped_clock_state_reset (cfg : Config) (evs : List GroupEvent) (now : Int)
    (h : (applyGroupEvents cfg evs).clockIntervalId = none) :
    (applyGroupEvents cfg evs).tickIndex = 0 ∧
    (applyGroupEvents cfg evs).secondIndex = 0 ∧
    (applyGroupEvents cfg evs).lastTickTime = -1 ∧
    elapsedTimeOf (applyGroupEvents cfg evs) now = 0 := by
  have hinv : ∀ (l : List GroupEvent) (g : GroupState), ResetInv g →
      ResetInv (l.foldl (applyGroupEvent cfg) g) := by
    intro l
    induction l with
    | nil => intro g hg; exact hg
    | cons e l ih =>
      intro g hg
      exact ih (applyGroupEvent cfg g e) (applyGroupEvent_resetInv cfg g e hg)
  unfold applyGroupEvents at h ⊢
  obtain ⟨h1, h2, h3⟩ := hinv evs GroupState.init (by intro _; exact ⟨rfl, rfl, rfl⟩) h
  refine ⟨h1, h2, h3, ?_⟩
  unfold elapsedTimeOf hasTicked
  rw [h3]
  simp

theorem stopped_clock_state_reset_witness :
    (applyGroupEvents ⟨100, true, 10, 1000⟩ [GroupEvent.create 0, GroupEvent.start 0,
      GroupEvent.tick 5, GroupEvent.stop 0]).clockIntervalId = none ∧
    ((applyGroupEvents ⟨100, true, 10, 1000⟩ [GroupEvent.create 0, GroupEvent.start 0,
        GroupEvent.tick 5, GroupEvent.stop 0]).tickIndex = 0 ∧
      (applyGroupEvents ⟨100, true, 10, 1000⟩ [GroupEvent.create 0, GroupEvent.start 0,
        GroupEvent.tick 5, GroupEvent.stop 0]).secondIndex = 0 ∧
      (applyGroupEvents ⟨100, true, 10, 1000⟩ [GroupEvent.create 0, GroupEvent.start 0,
        GroupEvent.tick 5, GroupEvent.stop 0]).lastTickTime = -1 ∧
      elapsedTimeOf (applyGroupEvents ⟨100, true, 10, 1000⟩ [GroupEvent.create 0,
        GroupEvent.start 0, GroupEvent.tick 5, GroupEvent.stop 0]) 7 = 0) :=
  ⟨by decide, stopped_clock_state_reset ⟨100, true, 10, 1000⟩ _ 7 (by decide)⟩

/-! ## The overflow scenario (C4) and destroy idempotence (C8) -/

def cfg4 : Config := ⟨100, true, 10, 1000⟩

/-- A producer write of 1500 bytes against `maxBufferSize = 1000`. -/
def overflowResult : ThrottleState × List GroupSignal :=
  transform cfg4 (List.replicate 1500 7) (ThrottleState.init cfg4)

/-- The group state after the overflowing write of the only throttle. -/
def g4 : GroupState :=
  applySignals 0 overflowResult.2 (applyGroupEvents cfg4 [GroupEvent.create 0])

set_option maxRecDepth 40000 in
/-- C4: on an overflowing write the throttle appends nothing and signals
`handleRequestDestroy` — but only `handleRequestDestroy`: the group removes it
from the throttle registry while the in-flight list still contains it and the
clock interval keeps running (the overflow path never calls
`handleRequestStop`). -/
theorem overflow_destroy_scenario :
    overflowResult.1.written = [] ∧
    overflowResult.1.pendingBytesCount = 0 ∧
    overflowResult.1.destroyed = true ∧
    overflowResult.2 = [GroupSignal.start, GroupSignal.destroyReq] ∧
    g4.bandwidthThrottles = [] ∧
    g4.inFlightRequests = [0] ∧
    g4.clockIntervalId = some () := by
  decide

/-- C8: destroying the same throttle twice is not a no-op. The second
`handleRequestDestroy` finds `indexOf == -1` and `splice(-1, 1)` removes the
last registered throttle; similarly a stop callback for an absent throttle
removes the last in-flight entry. -/
theorem destroy_second_call_mutates :
    (applyGroupEvents cfg4 [GroupEvent.create 0, GroupEvent.create 1,
      GroupEvent.destroyReq 0]).bandwidthThrottles = [1] ∧
    (applyGroupEvents cfg4 [GroupEvent.create 0, GroupEvent.create 1,
      GroupEvent.destroyReq 0, GroupEvent.destroyReq 0]).bandwidthThrottles = [] ∧
    applyGroupEvents cfg4 [GroupEvent.create 0, GroupEvent.create 1,
        GroupEvent.destroyReq 0, GroupEvent.destroyReq 0]
      ≠ applyGroupEvents cfg4 [GroupEvent.create 0, GroupEvent.create 1,
        GroupEvent.destroyReq 0] ∧
    (handleRequestStop 0
      { GroupState.init with
        inFlightRequests := [1, 2], clockIntervalId := some () }).inFlightRequests
      = [1] := by
  decide

/-! ## Unthrottled behavior of `process` (C6) and `flush` (C7) -/

def cfgU6 : Config := ⟨4, false, 1, 8⟩

/-- An unthrottled throttle whose producer has ended with 3 pending bytes. -/
def t6 : ThrottleState where
  buffer := [9, 9, 9, 0]
  pendingBytesCount := 3
  pendingBytesReadIndex := 0
  pendingBytesBufferExpandedFactor := 1
  pendingBytesBufferExpandedSize := 4
  isDataBeingWritten := false
  doneResolved := false
  destroyed := false
  written := [9, 9, 9]
  emitted := []

/-- Counterexample to C6: with `isThrottled = false`, `process` drains the
buffer and returns without finalizing — `done` stays unresolved, no stop
callback fires, the throttle is not destroyed — even though the producer has
already ended. -/
theorem process_unthrottled_no_finalize_cex :
    (process cfgU6 none t6).2.1 = 3 ∧
    (process cfgU6 none t6).1.destroyed = false ∧
    (process cfgU6 none t6).1.doneResolved = false ∧
    (process cfgU6 none t6).2.2 = [] := by
  decide

/-- C6 (amended): `process` on an unthrottled throttle never finalizes: the
unthrottled disjunct of the completion test short-circuits it, so `done` is
untouched, no callbacks fire, and the destroyed flag is unchanged. -/
theorem process_unthrottled_never_finalizes (cfg : Config) (m : Option Nat)
    (s : ThrottleState) (h : cfg.isThrottled = false) :
    (process cfg m s).1.destroyed = s.destroyed ∧
    (process cfg m s).1.doneResolved = s.doneResolved ∧
    (process cfg m s).2.2 = [] := by
  cases m with
  | none =>
    unfold process
    rw [h]
    by_cases hpos : 0 < s.pendingBytesCount - s.pendingBytesReadIndex
    · simp [hpos, trimBuffer]
    · simp [hpos, trimBuffer]
  | some q =>
    unfold process
    rw [h]
    by_cases hpos : 0 < min (s.pendingBytesReadIndex + q) s.pendingBytesCount
        - s.pendingBytesReadIndex
    · simp [hpos, trimBuffer]
    · simp [hpos, trimBuffer]

theorem process_unthrottled_never_finalizes_witness :
    cfgU6.isThrottled = false ∧
    (process cfgU6 (some 2) t6).1.destroyed = t6.destroyed ∧
    (process cfgU6 (some 2) t6).1.doneResolved = t6.doneResolved ∧
    (process cfgU6 (some 2) t6).2.2 = [] :=
  ⟨rfl, process_unthrottled_never_finalizes cfgU6 (some 2) t6 rfl⟩

def cfgT7 : Config := ⟨4, true, 1, 8⟩

/-- A throttled throttle with an empty pending buffer and an active producer. -/
def t7 : ThrottleState where
  buffer := [0, 0, 0, 0]
  pendingBytesCount := 0
  pendingBytesReadIndex := 0
  pendingBytesBufferExpandedFactor := 1
  pendingBytesBufferExpandedSize := 4
  isDataBeingWritten := true
  doneResolved := false
  destroyed := false
  written := []
  emitted := []

/-- Counterexample to C7: `flush` on an empty pending buffer returns
immediately having done nothing but clear `isDataBeingWritten` — `done` is not
resolved, no stop callback fires, the throttle is not destroyed. -/
theorem flush_empty_no_finalize_cex :
    (flush cfgT7 t7).2.1 = FlushOutcome.immediate ∧
    (flush cfgT7 t7).1.doneResolved = false ∧
    (flush cfgT7 t7).1.destroyed = false ∧
    (flush cfgT7 t7).2.2 = [] ∧
    (flush cfgT7 t7).1.isDataBeingWritten = false := by
  decide

/-- C7 (amended): `flush` clears `isDataBeingWritten`; with an empty pending
buffer it returns immediately with no further action; otherwise, unthrottled,
it signals stop and destroys without resolving `done`; otherwise it returns
the pending `done` handle. -/
theorem flush_char (cfg : Config) (s : ThrottleState) :
    (flush cfg s).1.isDataBeingWritten = false ∧
    (s.pendingBytesCount = 0 →
      flush cfg s = ({ s with isDataBeingWritten := false },
        FlushOutcome.immediate, [])) ∧
    (s.pendingBytesCount ≠ 0 → cfg.isThrottled = false →
      flush cfg s = ({ s with isDataBeingWritten := false, destroyed := true },
        FlushOutcome.stopDestroy, [GroupSignal.stop, GroupSignal.destroyReq])) ∧
    (s.pendingBytesCount ≠ 0 → cfg.isThrottled = true →
      flush cfg s = ({ s with isDataBeingWritten := false },
        FlushOutcome.waitDone, [])) := by
  unfold flush
  dsimp only
  by_cases hz : s.pendingBytesCount = 0
  · rw [if_pos hz]
    refine ⟨rfl, fun _ => rfl, ?_, ?_⟩
    · intro hne _
      exact absurd hz hne
    · intro hne _
      exact absurd hz hne
  · rw [if_neg hz]
    by_cases ht : cfg.isThrottled = true
    · rw [if_neg (by simp [ht])]
      refine ⟨rfl, ?_, ?_, ?_⟩
      · intro hcon
        exact absurd hcon hz
      · intro _ hf
        rw [ht] at hf
        exact absurd hf (by decide)
      · intro _ _
        rfl
    · have hf' : cfg.isThrottled = false := by
        simpa using ht
      rw [if_pos (by simp [hf'])]
      refine ⟨rfl, ?_, ?_, ?_⟩
      · intro hcon
        exact absurd hcon hz
      · intro _ _
        rfl
      · intro _ htr
        rw [hf'] at htr
        exact absurd htr (by decide)

theorem flush_char_witness :
    t7.pendingBytesCount = 0 ∧
    flush cfgT7 t7 = ({ t7 with isDataBeingWritten := false },
      FlushOutcome.immediate, []) :=
  ⟨rfl, (flush_char cfgT7 t7).2.1 rfl⟩

/-! ## The backpressure variant (`BandwidthThrottleWithBackpressure`)

The field set of the backpressure throttle is the plain throttle's plus
`resolver_backpressure`, the stored resolver of the producer write currently
awaiting emission; we embed it as `core : ThrottleState` (field-for-field the
same data) plus `resolverPending : Bool` (`true` while a resolver is stored).
Each method below follows its own source: the trim does not clamp, `process`
trims before pushing and resolves the stored resolver (`Math.round` of a
natural byte budget is the identity), and the growth test compares
`remaining + chunk.length` against the expanded size. -/

structure BPState where
  core : ThrottleState
  resolverPending : Bool
deriving DecidableEq, Repr

/-- Constructor state: same as the plain variant, `resolver_backpressure`
undefined. -/
def BPState.init (cfg : Config) : BPState :=
  ⟨ThrottleState.init cfg, false⟩

/-- `BandwidthThrottleWithBackpressure.trim_buffer`: unlike the plain variant,
the new `pendingBytesCount` is the transferred length itself (no clamp). -/
def trimBufferBP (b : BPState) : BPState :=
  let s := b.core
  let transferredBuffer := subarray s.buffer s.pendingBytesReadIndex s.pendingBytesCount
  { b with
    core :=
      { s with
        buffer :=
          listSet (List.replicate s.pendingBytesBufferExpandedSize 0) 0 transferredBuffer
        pendingBytesReadIndex := 0
        pendingBytesCount := transferredBuffer.length } }

/-- `BandwidthThrottleWithBackpressure.process(maxBytesToProcess)`: trims
before pushing, and pushing hands the stored backpressure resolver its
resolution (the producer write completes); `Math.round` of a natural byte
budget is the identity. -/
def processBP (cfg : Config) (maxBytesToProcess : Option Nat) (b : BPState) :
    BPState × Nat × List GroupSignal :=
  let s := b.core
  let startReadIndex := s.pendingBytesReadIndex
  let endReadIndex :=
    match maxBytesToProcess with
    | none => s.pendingBytesCount
    | some m => min (s.pendingBytesReadIndex + m) s.pendingBytesCount
  let bytesToPushLength := endReadIndex - startReadIndex
  let b1 :=
    if 0 < bytesToPushLength then
      let bytesToPush := subarray s.buffer startReadIndex endReadIndex
      let t := trimBufferBP { b with core := { s with pendingBytesReadIndex := endReadIndex } }
      { t with
        resolverPending := false
        core := { t.core with emitted := t.core.emitted ++ bytesToPush } }
    else b
  if b1.core.pendingBytesReadIndex < b1.core.pendingBytesCount
      || b1.core.isDataBeingWritten || !cfg.isThrottled then
    (b1, bytesToPushLength, [])
  else
    ({ b1 with core := { b1.core with doneResolved := true, destroyed := true } },
      bytesToPushLength, [GroupSignal.stop, GroupSignal.destroyReq])

/-- Unthrottled tail of the backpressure `transform`
(`if (!this.config.isThrottled) this.process(undefined)`). -/
def maybeProcessUnthrottledBP (cfg : Config) (b : BPState) : BPState × List GroupSignal :=
  if !cfg.isThrottled then
    let r := processBP cfg none b
    (r.1, r.2.2)
  else (b, [])

/-- Body of `BandwidthThrottleWithBackpressure.transform(chunk)`: the growth
test is `remaining + chunk.length > pendingBytesBufferExpandedSize` (the plain
variant instead tests `pendingBytesBufferExpandedSize < maxBufferSize`). -/
def transformBodyBP (cfg : Config) (chunk : List Nat) (b0 : BPState) :
    BPState × List GroupSignal :=
  let s0 := b0.core
  if s0.pendingBytesBufferExpandedSize < chunk.length + s0.pendingBytesCount then
    let remainingContentInBufferLength :=
      s0.pendingBytesCount - s0.pendingBytesReadIndex
    if chunk.length + remainingContentInBufferLength ≤ cfg.maxBufferSize then
      let b1 :=
        if s0.pendingBytesBufferExpandedSize
            < remainingContentInBufferLength + chunk.length then
          let factor :=
            ceilDivJS (chunk.length + remainingContentInBufferLength)
              cfg.bytesPerSecond
          let size :=
            if cfg.maxBufferSize < cfg.bytesPerSecond * factor then cfg.maxBufferSize
            else cfg.bytesPerSecond * factor
          { b0 with
            core :=
              { s0 with
                pendingBytesBufferExpandedFactor := factor
                pendingBytesBufferExpandedSize := size } }
        else b0
      let b2 := trimBufferBP b1
      let b3 := { b2 with core := appendChunk b2.core chunk }
      maybeProcessUnthrottledBP cfg b3
    else
      ({ b0 with core := { s0 with destroyed := true } }, [GroupSignal.destroyReq])
  else
    let b3 := { b0 with core := appendChunk b0.core chunk }
    maybeProcessUnthrottledBP cfg b3

/-- `BandwidthThrottleWithBackpressure.transform(chunk)`. -/
def transformBP (cfg : Config) (chunk : List Nat) (b : BPState) :
    BPState × List GroupSignal :=
  let started := !b.core.isDataBeingWritten
  let b0 :=
    if started then { b with core := { b.core with isDataBeingWritten := true } } else b
  let sigs0 := if started then [GroupSignal.start] else []
  let r := transformBodyBP cfg chunk b0
  (r.1, sigs0 ++ r.2)

/-- `BandwidthThrottleWithBackpressure.flush()`: identical to the plain
variant. -/
def flushBP (cfg : Config) (b : BPState) : BPState × FlushOutcome × List GroupSignal :=
  let b0 := { b with core := { b.core with isDataBeingWritten := false } }
  if b0.core.pendingBytesCount = 0 then (b0, FlushOutcome.immediate, [])
  else if !cfg.isThrottled then
    ({ b0 with core := { b0.core with destroyed := true } }, FlushOutcome.stopDestroy,
      [GroupSignal.stop, GroupSignal.destroyReq])
  else (b0, FlushOutcome.waitDone, [])

/-- A producer write through the stream wrapper stores the write's resolver
(`resolverPending := true`) and runs the inner transform; the other
operations call the inner methods directly. -/
def stepOpBP (cfg : Config) (b : BPState) : ThrottleOp → BPState × List GroupSignal
  | ThrottleOp.write chunk => transformBP cfg chunk { b with resolverPending := true }
  | ThrottleOp.proc m => let r := processBP cfg m b; (r.1, r.2.2)
  | ThrottleOp.flushEnd => let r := flushBP cfg b; (r.1, r.2.2)

def runFromBP (cfg : Config) (b : BPState) : List ThrottleOp → Option BPState
  | [] => some b
  | op :: ops =>
    if b.core.destroyed then none
    else runFromBP cfg (stepOpBP cfg b op).1 ops

def runOpsBP (cfg : Config) (ops : List ThrottleOp) : Option BPState :=
  runFromBP cfg (BPState.init cfg) ops

/-! ### Equivalence of the two variants on well-formed states -/

lemma trimBuffer_set_emitted (cfg : Config) (t : ThrottleState) (e : List Nat) :
    trimBuffer cfg { t with emitted := e } = { trimBuffer cfg t with emitted := e } := rfl

lemma trimBuffer_emitted (cfg : Config) (t : ThrottleState) :
    (trimBuffer cfg t).emitted = t.emitted := rfl

/-- On states whose unemitted region fits `maxBufferSize`, the unclamped trim
of the backpressure variant coincides with the plain (clamping) trim. -/
lemma trimBufferBP_eq (cfg : Config) (b : BPState)
    (h1 : b.core.pendingBytesReadIndex ≤ b.core.pendingBytesCount)
    (h2 : b.core.pendingBytesCount ≤ b.core.buffer.length)
    (h3 : b.core.pendingBytesCount - b.core.pendingBytesReadIndex
      ≤ cfg.maxBufferSize) :
    trimBufferBP b = ⟨trimBuffer cfg b.core, b.resolverPending⟩ := by
  have hcount : (subarray b.core.buffer b.core.pendingBytesReadIndex
      b.core.pendingBytesCount).length
      = (ClampNum ((b.core.pendingBytesCount : Int)
          - (b.core.pendingBytesReadIndex : Int)) 0 (cfg.maxBufferSize : Int)).toNat := by
    rw [subarray_length _ _ _ h2]
    unfold ClampNum
    omega
  simp only [trimBufferBP, trimBuffer]
  rw [hcount]

/-- The backpressure `process` is the plain `process` on the core, and it
clears the stored resolver exactly when bytes were pushed. -/
lemma processBP_eq_some (cfg : Config) (q : Nat) (s : ThrottleState) (p : Bool)
    (hWF : WellFormed cfg s) :
    processBP cfg (some q) ⟨s, p⟩ =
      ((⟨(process cfg (some q) s).1,
          if 0 < min q s.pendingBytesCount then false else p⟩ : BPState),
        (process cfg (some q) s).2) := by
  obtain ⟨h0, hlen, hc, hmax⟩ := hWF
  simp only [processBP, process]
  dsimp only
  simp only [h0, Nat.zero_add, Nat.sub_zero]
  by_cases hpos : 0 < min q s.pendingBytesCount
  · rw [if_pos hpos]
    have htr := trimBufferBP_eq cfg
      ⟨{ s with pendingBytesReadIndex := min q s.pendingBytesCount }, p⟩
      (by dsimp only; omega) (by dsimp only; omega) (by dsimp only; omega)
    dsimp only at htr
    rw [htr]
    simp only [trimBuffer]
    dsimp only
    split
    · rfl
    · rfl
  · rw [if_neg hpos]
    split
    · rfl
    · rfl

lemma processBP_none_eq (cfg : Config) (b : BPState)
    (h0 : b.core.pendingBytesReadIndex = 0) :
    processBP cfg none b = processBP cfg (some b.core.pendingBytesCount) b := by
  simp only [processBP, h0, Nat.zero_add, Nat.min_self]

lemma maybeProcessUnthrottledBP_eq (cfg : Config) (s : ThrottleState) (p : Bool)
    (hWF : WellFormed cfg s) :
    (maybeProcessUnthrottledBP cfg ⟨s, p⟩).1.core
        = (maybeProcessUnthrottled cfg s).1 ∧
    (maybeProcessUnthrottledBP cfg ⟨s, p⟩).2 = (maybeProcessUnthrottled cfg s).2 := by
  unfold maybeProcessUnthrottledBP maybeProcessUnthrottled
  by_cases ht : cfg.isThrottled
  · rw [ht]
    exact ⟨rfl, rfl⟩
  · simp only [Bool.not_eq_true] at ht
    rw [ht]
    simp only [Bool.not_false, if_pos]
    rw [processBP_none_eq cfg ⟨s, p⟩ hWF.1, process_none_eq cfg s hWF.1]
    rw [processBP_eq_some cfg s.pendingBytesCount s p hWF]
    exact ⟨rfl, rfl⟩

/-- The backpressure write body coincides with the plain write body on the
core: on well-formed states (whose read index is 0 between operations) the
plain variant's growth test `expandedSize < maxBufferSize` and the
backpressure variant's `remaining + chunk.length > expandedSize` decide
identically inside the does-not-fit branch. -/
lemma transformBodyBP_eq (cfg : Config) (chunk : List Nat) (s : ThrottleState)
    (p : Bool) (hB : 1 ≤ cfg.bytesPerSecond) (hWF : WellFormed cfg s) :
    (transformBodyBP cfg chunk ⟨s, p⟩).1.core = (transformBody cfg chunk s).1 ∧
    (transformBodyBP cfg chunk ⟨s, p⟩).2 = (transformBody cfg chunk s).2 := by
  obtain ⟨h0, hlen, hc, hmax⟩ := hWF
  unfold transformBodyBP transformBody
  dsimp only
  by_cases houter : s.pendingBytesBufferExpandedSize
      < chunk.length + s.pendingBytesCount
  · rw [if_pos houter, if_pos houter]
    by_cases hguard : chunk.length
        + (s.pendingBytesCount - s.pendingBytesReadIndex) ≤ cfg.maxBufferSize
    · rw [if_pos hguard, if_pos hguard]
      have hgrow_bp : s.pendingBytesBufferExpandedSize
          < s.pendingBytesCount - s.pendingBytesReadIndex + chunk.length := by
        omega
      have hgrow_pl : s.pendingBytesBufferExpandedSize < cfg.maxBufferSize := by
        omega
      rw [if_pos hgrow_bp, if_pos hgrow_pl]
      set F := ceilDivJS (chunk.length
        + (s.pendingBytesCount - s.pendingBytesReadIndex)) cfg.bytesPerSecond with hF
      set SZ := if cfg.maxBufferSize < cfg.bytesPerSecond * F then cfg.maxBufferSize
        else cfg.bytesPerSecond * F with hSZ
      have hceil := le_mul_ceilDivJS
        (chunk.length + (s.pendingBytesCount - s.pendingBytesReadIndex))
        cfg.bytesPerSecond hB
      rw [← hF] at hceil
      have hsz : s.pendingBytesCount + chunk.length ≤ SZ := by
        rw [hSZ]
        split
        · omega
        · omega
      have hszmax : SZ ≤ cfg.maxBufferSize := by
        rw [hSZ]
        split
        · exact Nat.le_refl _
        · omega
      have htr := trimBufferBP_eq cfg
        ⟨{ s with
            pendingBytesBufferExpandedFactor := F
            pendingBytesBufferExpandedSize := SZ }, p⟩
        (by dsimp only; omega) (by dsimp only; rw [hlen]; exact hc)
        (by dsimp only; omega)
      dsimp only at htr
      rw [htr]
      dsimp only
      obtain ⟨htc, hti, htl, _⟩ := trimBuffer_spec cfg
        { s with
          pendingBytesBufferExpandedFactor := F
          pendingBytesBufferExpandedSize := SZ }
        (by dsimp only; omega) (by dsimp only; rw [hlen]; exact hc)
        (by dsimp only; omega) (by dsimp only; omega)
      dsimp only at htc hti htl
      have hfit : (trimBuffer cfg
            { s with
              pendingBytesBufferExpandedFactor := F
              pendingBytesBufferExpandedSize := SZ }).pendingBytesCount + chunk.length
          ≤ (trimBuffer cfg
            { s with
              pendingBytesBufferExpandedFactor := F
              pendingBytesBufferExpandedSize := SZ }).buffer.length := by
        rw [htc, htl]
        omega
      obtain ⟨hap1, hap2, _, _⟩ := appendChunk_spec
        (trimBuffer cfg
          { s with
            pendingBytesBufferExpandedFactor := F
            pendingBytesBufferExpandedSize := SZ }) chunk hti hfit
      refine maybeProcessUnthrottledBP_eq cfg _ p ⟨?_, ?_, ?_, ?_⟩
      · show (appendChunk (trimBuffer cfg
          { s with
            pendingBytesBufferExpandedFactor := F
            pendingBytesBufferExpandedSize := SZ }) chunk).pendingBytesReadIndex = 0
        simp only [appendChunk]
        exact hti
      · show (appendChunk (trimBuffer cfg
          { s with
            pendingBytesBufferExpandedFactor := F
            pendingBytesBufferExpandedSize := SZ }) chunk).buffer.length = _
        rw [hap1, htl]
        simp only [appendChunk]
        rfl
      · show (appendChunk (trimBuffer cfg
          { s with
            pendingBytesBufferExpandedFactor := F
            pendingBytesBufferExpandedSize := SZ }) chunk).pendingBytesCount ≤ _
        rw [hap2, htc]
        show s.pendingBytesCount - s.pendingBytesReadIndex + chunk.length ≤ SZ
        omega
      · show (appendChunk (trimBuffer cfg
          { s with
            pendingBytesBufferExpandedFactor := F
            pendingBytesBufferExpandedSize := SZ }) chunk).pendingBytesBufferExpandedSize
          ≤ cfg.maxBufferSize
        show SZ ≤ cfg.maxBufferSize
        exact hszmax
    · rw [if_neg hguard, if_neg hguard]
      exact ⟨rfl, rfl⟩
  · rw [if_neg houter, if_neg houter]
    obtain ⟨hap1, hap2, _, _⟩ := appendChunk_spec s chunk h0 (by omega)
    refine maybeProcessUnthrottledBP_eq cfg _ p ⟨?_, ?_, ?_, ?_⟩
    · show (appendChunk s chunk).pendingBytesReadIndex = 0
      simp only [appendChunk]
      exact h0
    · show (appendChunk s chunk).buffer.length = _
      rw [hap1]
      simp only [appendChunk]
      exact hlen
    · show (appendChunk s chunk).pendingBytesCount ≤ _
      rw [hap2]
      show s.pendingBytesCount + chunk.length ≤ s.pendingBytesBufferExpandedSize
      omega
    · show (appendChunk s chunk).pendingBytesBufferExpandedSize ≤ cfg.maxBufferSize
      show s.pendingBytesBufferExpandedSize ≤ cfg.maxBufferSize
      exact hmax

/-- The backpressure `transform` coincides with the plain `transform` on the
core. -/
lemma transformBP_eq (cfg : Config) (chunk : List Nat) (s : ThrottleState)
    (p : Bool) (hB : 1 ≤ cfg.bytesPerSecond) (hWF : WellFormed cfg s) :
    (transformBP cfg chunk ⟨s, p⟩).1.core = (transform cfg chunk s).1 ∧
    (transformBP cfg chunk ⟨s, p⟩).2 = (transform cfg chunk s).2 := by
  unfold transformBP transform
  dsimp only
  by_cases hst : s.isDataBeingWritten
  · rw [hst]
    simp only [Bool.not_true, if_neg (show ¬ (false = true) by decide)]
    obtain ⟨hcore, hsig⟩ := transformBodyBP_eq cfg chunk s p hB hWF
    exact ⟨hcore, by rw [hsig]⟩
  · simp only [Bool.not_eq_true] at hst
    rw [hst]
    simp only [Bool.not_false, if_pos]
    obtain ⟨hcore, hsig⟩ := transformBodyBP_eq cfg chunk
      { s with isDataBeingWritten := true } p hB
      ⟨hWF.1, hWF.2.1, hWF.2.2.1, hWF.2.2.2⟩
    exact ⟨hcore, by rw [hsig]⟩

/-- The backpressure `flush` coincides with the plain `flush` on the core. -/
lemma flushBP_eq (cfg : Config) (s : ThrottleState) (p : Bool) :
    (flushBP cfg ⟨s, p⟩).1.core = (flush cfg s).1 ∧
    (flushBP cfg ⟨s, p⟩).2.1 = (flush cfg s).2.1 ∧
    (flushBP cfg ⟨s, p⟩).2.2 = (flush cfg s).2.2 := by
  unfold flushBP flush
  dsimp only
  by_cases hz : s.pendingBytesCount = 0
  · rw [if_pos hz, if_pos hz]
    exact ⟨rfl, rfl, rfl⟩
  · rw [if_neg hz, if_neg hz]
    by_cases ht : (!cfg.isThrottled) = true
    · rw [if_pos ht, if_pos ht]
      exact ⟨rfl, rfl, rfl⟩
    · rw [if_neg ht, if_neg ht]
      exact ⟨rfl, rfl, rfl⟩

/-- One operation of the backpressure variant coincides with the plain
variant on the core. -/
lemma stepOpBP_eq (cfg : Config) (s : ThrottleState) (p : Bool) (op : ThrottleOp)
    (hB : 1 ≤ cfg.bytesPerSecond) (hWF : WellFormed cfg s) :
    (stepOpBP cfg ⟨s, p⟩ op).1.core = (stepOp cfg s op).1 ∧
    (stepOpBP cfg ⟨s, p⟩ op).2 = (stepOp cfg s op).2 := by
  cases op with
  | write chunk =>
    show (transformBP cfg chunk ⟨s, true⟩).1.core = (transform cfg chunk s).1 ∧
      (transformBP cfg chunk ⟨s, true⟩).2 = (transform cfg chunk s).2
    exact transformBP_eq cfg chunk s true hB hWF
  | proc m =>
    cases m with
    | none =>
      show ((processBP cfg none ⟨s, p⟩).1.core = (process cfg none s).1) ∧
        ((processBP cfg none ⟨s, p⟩).2.2 = (process cfg none s).2.2)
      rw [processBP_none_eq cfg ⟨s, p⟩ hWF.1, process_none_eq cfg s hWF.1,
        processBP_eq_some cfg s.pendingBytesCount s p hWF]
      exact ⟨rfl, rfl⟩
    | some q =>
      show ((processBP cfg (some q) ⟨s, p⟩).1.core = (process cfg (some q) s).1) ∧
        ((processBP cfg (some q) ⟨s, p⟩).2.2 = (process cfg (some q) s).2.2)
      rw [processBP_eq_some cfg q s p hWF]
      exact ⟨rfl, rfl⟩
  | flushEnd =>
    obtain ⟨h1, _, h3⟩ := flushBP_eq cfg s p
    exact ⟨h1, h3⟩

/-- One plain operation preserves the invariants. -/
lemma stepOp_preserves (cfg : Config) (s : ThrottleState) (op : ThrottleOp)
    (hB : 1 ≤ cfg.bytesPerSecond) (hW : WellFormed cfg s) (hA : Accounted s) :
    WellFormed cfg (stepOp cfg s op).1 ∧ Accounted (stepOp cfg s op).1 := by
  cases op with
  | write chunk => exact transform_preserves cfg chunk s hB hW hA
  | proc m =>
    cases m with
    | none => exact process_none_preserves cfg s hW hA
    | some q => exact process_some_preserves cfg q s hW hA
  | flushEnd => exact flush_preserves cfg s hW hA

lemma runFromBP_core (cfg : Config) (hB : 1 ≤ cfg.bytesPerSecond) :
    ∀ (ops : List ThrottleOp) (s : ThrottleState) (p : Bool),
      WellFormed cfg s → Accounted s →
      Option.map BPState.core (runFromBP cfg ⟨s, p⟩ ops) = runFrom cfg s ops := by
  intro ops
  induction ops with
  | nil => intro s p _ _; rfl
  | cons op ops ih =>
    intro s p hW hA
    unfold runFromBP runFrom
    dsimp only
    by_cases hd : s.destroyed
    · rw [if_pos hd, if_pos hd]
      rfl
    · rw [if_neg hd, if_neg hd]
      have hstep := stepOpBP_eq cfg s p op hB hW
      have hpres := stepOp_preserves cfg s op hB hW hA
      have hrepr : (stepOpBP cfg ⟨s, p⟩ op).1
          = ⟨(stepOp cfg s op).1, (stepOpBP cfg ⟨s, p⟩ op).1.resolverPending⟩ := by
        rw [← hstep.1]
      rw [hrepr]
      exact ih (stepOp cfg s op).1 _ hpres.1 hpres.2

/-- C9: for every sequence of producer writes, `process` calls and `flush`
under a valid configuration, the backpressure variant and the plain variant
evolve identical cores — same buffer contents and capacity growth, same
compactions, same emitted byte slices, same completion point and group
callbacks; the stored producer-write resolver is the only extra state, and an
emitting `process` call is what resolves it (the producer write completes on
emission, not on append). -/
theorem backpressure_variant_equiv (cfg : Config) (ops : List ThrottleOp)
    (hB : 1 ≤ cfg.bytesPerSecond) (hBM : cfg.bytesPerSecond ≤ cfg.maxBufferSize) :
    Option.map BPState.core (runOpsBP cfg ops) = runOps cfg ops ∧
    (∀ (s : ThrottleState) (p : Bool) (m : Option Nat), WellFormed cfg s →
      0 < (processBP cfg m ⟨s, p⟩).2.1 →
      (processBP cfg m ⟨s, p⟩).1.resolverPending = false) := by
  constructor
  · exact runFromBP_core cfg hB ops (ThrottleState.init cfg) false
      (init_wellFormed cfg hBM) (init_accounted cfg)
  · intro s p m hWF hpos
    cases m with
    | none =>
      rw [processBP_none_eq cfg ⟨s, p⟩ hWF.1,
        processBP_eq_some cfg s.pendingBytesCount s p hWF] at hpos ⊢
      dsimp only at hpos ⊢
      rw [(process_char_some cfg s.pendingBytesCount s hWF).1] at hpos
      rw [if_pos hpos]
    | some q =>
      rw [processBP_eq_some cfg q s p hWF] at hpos ⊢
      dsimp only at hpos ⊢
      rw [(process_char_some cfg q s hWF).1] at hpos
      rw [if_pos hpos]

theorem backpressure_variant_equiv_witness :
    1 ≤ cfgC3.bytesPerSecond ∧ cfgC3.bytesPerSecond ≤ cfgC3.maxBufferSize ∧
    Option.map BPState.core (runOpsBP cfgC3 opsC3) = runOps cfgC3 opsC3 :=
  ⟨by decide, by decide,
    (backpressure_variant_equiv cfgC3 opsC3 (by decide) (by decide)).1⟩

/-! ## The tick fairness simulation (C1)

`processInFlightRequests` with every tick on time (`delayMultiplier = 1`) over
a stable in-flight set of `k` throttles: each tick computes, for the throttle
at position `i`, the rotated per-second partition of `bytesPerSecond` and its
per-tick partition, and calls `process` with that quota; after the loop the
tick counter advances, wrapping into the second counter. -/

/-- The per-tick byte quota computed inside the `forEach` of
`processInFlightRequests` (with `delayMultiplier = 1`). -/
def quotaFor (cfg : Config) (count i period tickIndex : Nat) : Nat :=
  let rotatedIndex := (i + period) % count
  let bytesPerRequestPerSecond :=
    getPartitionedIntegerPartAtIndex cfg.bytesPerSecond count rotatedIndex
  getPartitionedIntegerPartAtIndex bytesPerRequestPerSecond cfg.ticksPerSecond
    tickIndex

/-- Group state for the simulation: the stable in-flight throttles (indices
below `k`) and the two clock counters. -/
structure GroupSim where
  thr : Nat → ThrottleState
  tickIndex : Nat
  secondIndex : Nat

/-- One executed on-time tick over a stable in-flight set of size `k`. -/
def groupTickSim (cfg : Config) (k : Nat) (st : GroupSim) : GroupSim :=
  let period := st.secondIndex % k
  let thr1 := fun i =>
    if i < k then
      (process cfg (some (quotaFor cfg k i period st.tickIndex)) (st.thr i)).1
    else st.thr i
  let t1 := st.tickIndex + 1
  if t1 = cfg.ticksPerSecond then
    { thr := thr1, tickIndex := 0, secondIndex := st.secondIndex + 1 }
  else
    { thr := thr1, tickIndex := t1, secondIndex := st.secondIndex }

def runSim (cfg : Config) (k : Nat) (st : GroupSim) : Nat → GroupSim
  | 0 => st
  | m + 1 => groupTickSim cfg k (runSim cfg k st m)

/-- The quota throttle `i` receives at the `j`-th tick of a window that
starts at second `s0`, tick 0. -/
def quotaAt (cfg : Config) (k s0 i j : Nat) : Nat :=
  quotaFor cfg k i ((s0 + j / cfg.ticksPerSecond) % k) (j % cfg.ticksPerSecond)

/-- An in-flight throttle eligible for quota: well-formed with an active
producer. -/
def Ready (cfg : Config) (t : ThrottleState) : Prop :=
  WellFormed cfg t ∧ t.isDataBeingWritten = true

lemma groupTickSim_thr (cfg : Config) (k : Nat) (st : GroupSim) :
    (groupTickSim cfg k st).thr = fun i =>
      if i < k then
        (process cfg (some (quotaFor cfg k i (st.secondIndex % k) st.tickIndex))
          (st.thr i)).1
      else st.thr i := by
  unfold groupTickSim
  dsimp only
  split <;> rfl

lemma runSim_counters (cfg : Config) (k : Nat) (st : GroupSim)
    (hT : 1 ≤ cfg.ticksPerSecond) (ht0 : st.tickIndex = 0) :
    ∀ m, (runSim cfg k st m).tickIndex = m % cfg.ticksPerSecond ∧
      (runSim cfg k st m).secondIndex
        = st.secondIndex + m / cfg.ticksPerSecond := by
  intro m
  induction m with
  | zero =>
    constructor
    · simpa [runSim] using ht0
    · simp [runSim]
  | succ m ih =>
    obtain ⟨hti, hsi⟩ := ih
    show (groupTickSim cfg k (runSim cfg k st m)).tickIndex = _ ∧
      (groupTickSim cfg k (runSim cfg k st m)).secondIndex = _
    unfold groupTickSim
    dsimp only
    rw [hti, hsi]
    have hdm := Nat.div_add_mod m cfg.ticksPerSecond
    rw [Nat.mul_comm] at hdm
    by_cases hw : m % cfg.ticksPerSecond + 1 = cfg.ticksPerSecond
    · rw [if_pos hw]
      have hmul : (m / cfg.ticksPerSecond + 1) * cfg.ticksPerSecond
          = (m / cfg.ticksPerSecond) * cfg.ticksPerSecond + cfg.ticksPerSecond := by
        rw [Nat.add_mul, Nat.one_mul]
      have hrep : m + 1
          = (m / cfg.ticksPerSecond + 1) * cfg.ticksPerSecond + 0 := by
        omega
      constructor
      · show 0 = (m + 1) % cfg.ticksPerSecond
        rw [hrep, block_index_mod _ _ _ (by omega)]
      · show st.secondIndex + m / cfg.ticksPerSecond + 1
          = st.secondIndex + (m + 1) / cfg.ticksPerSecond
        rw [hrep, block_index_div _ _ _ (by omega)]
        omega
    · rw [if_neg hw]
      have hlt : m % cfg.ticksPerSecond + 1 < cfg.ticksPerSecond := by
        have := Nat.mod_lt m (show 0 < cfg.ticksPerSecond by omega)
        omega
      have hrep : m + 1 = (m / cfg.ticksPerSecond) * cfg.ticksPerSecond
          + (m % cfg.ticksPerSecond + 1) := by omega
      constructor
      · show m % cfg.ticksPerSecond + 1 = (m + 1) % cfg.ticksPerSecond
        rw [hrep, block_index_mod _ _ _ hlt]
      · show st.secondIndex + m / cfg.ticksPerSecond
          = st.secondIndex + (m + 1) / cfg.ticksPerSecond
        rw [hrep, block_index_div _ _ _ hlt]

/-- Within one second, the per-tick quotas of throttle `i` sum to its rotated
per-second partition. -/
lemma quotaAt_second_sum (cfg : Config) (k s0 i s : Nat)
    (hT : 1 ≤ cfg.ticksPerSecond) :
    (∑ t ∈ Finset.range cfg.ticksPerSecond,
      quotaAt cfg k s0 i (s * cfg.ticksPerSecond + t))
      = getPartitionedIntegerPartAtIndex cfg.bytesPerSecond k
          ((i + (s0 + s)) % k) := by
  have hmod : (i + (s0 + s) % k) % k = (i + (s0 + s)) % k := by
    conv_rhs => rw [Nat.add_mod i (s0 + s) k]
    conv_lhs => rw [Nat.add_mod i ((s0 + s) % k) k]
    rw [Nat.mod_mod_of_dvd _ (dvd_refl k)]
  have hcongr : ∀ t ∈ Finset.range cfg.ticksPerSecond,
      quotaAt cfg k s0 i (s * cfg.ticksPerSecond + t)
        = getPartitionedIntegerPartAtIndex
            (getPartitionedIntegerPartAtIndex cfg.bytesPerSecond k
              ((i + (s0 + s)) % k))
            cfg.ticksPerSecond t := by
    intro t ht
    simp only [Finset.mem_range] at ht
    unfold quotaAt quotaFor
    rw [block_index_div s t _ ht, block_index_mod s t _ ht, hmod]
  rw [Finset.sum_congr rfl hcongr]
  exact partition_sum _ _ hT

/-- Over `k` whole seconds the quotas of throttle `i` sum to the entire
per-second budget: the rotation hands it each remainder slot exactly once. -/
lemma quotaAt_window_sum (cfg : Config) (k s0 i : Nat)
    (hT : 1 ≤ cfg.ticksPerSecond) (hk : 1 ≤ k) :
    (∑ j ∈ Finset.range (k * cfg.ticksPerSecond), quotaAt cfg k s0 i j)
      = cfg.bytesPerSecond := by
  rw [sum_range_blocks]
  have hsec : ∀ s ∈ Finset.range k,
      (∑ t ∈ Finset.range cfg.ticksPerSecond,
        quotaAt cfg k s0 i (s * cfg.ticksPerSecond + t))
        = getPartitionedIntegerPartAtIndex cfg.bytesPerSecond k
            ((s + (i + s0)) % k) := by
    intro s _
    rw [quotaAt_second_sum cfg k s0 i s hT,
      show i + (s0 + s) = s + (i + s0) from by omega]
  rw [Finset.sum_congr rfl hsec,
    sum_range_rotate k (i + s0) (getPartitionedIntegerPartAtIndex cfg.bytesPerSecond k)]
  exact partition_sum _ _ hk

lemma pendingSlice_length (t : ThrottleState) (h0 : t.pendingBytesReadIndex = 0)
    (hcl : t.pendingBytesCount ≤ t.buffer.length) :
    (pendingSlice t).length = t.pendingBytesCount := by
  unfold pendingSlice
  rw [subarray_length _ _ _ hcl, h0]
  omega

/-- Simulation invariant: through a window of at most `k * ticksPerSecond`
on-time ticks over a stable in-flight set whose throttles each start with at
least `bytesPerSecond` pending bytes, every tick hands every throttle exactly
its scheduled quota, so the cumulative emission is the cumulative quota sum. -/
lemma runSim_spec (cfg : Config) (k s0 : Nat) (st0 : GroupSim)
    (hT : 1 ≤ cfg.ticksPerSecond) (hk : 1 ≤ k)
    (ht0 : st0.tickIndex = 0) (hs0 : st0.secondIndex = s0)
    (hready : ∀ i, i < k → Ready cfg (st0.thr i))
    (hpend : ∀ i, i < k →
      cfg.bytesPerSecond ≤ (st0.thr i).pendingBytesCount) :
    ∀ m, m ≤ k * cfg.ticksPerSecond → ∀ i, i < k →
      Ready cfg ((runSim cfg k st0 m).thr i) ∧
      ((runSim cfg k st0 m).thr i).pendingBytesCount
        = (st0.thr i).pendingBytesCount
          - ∑ j ∈ Finset.range m, quotaAt cfg k s0 i j ∧
      ((runSim cfg k st0 m).thr i).emitted.length
        = (st0.thr i).emitted.length
          + ∑ j ∈ Finset.range m, quotaAt cfg k s0 i j := by
  intro m
  induction m with
  | zero =>
    intro _ i hik
    refine ⟨hready i hik, ?_, ?_⟩ <;> simp [runSim]
  | succ m ih =>
    intro hm1 i hik
    have hm : m ≤ k * cfg.ticksPerSecond := Nat.le_of_succ_le hm1
    obtain ⟨⟨hWFm, hprod_m⟩, hcount_m, hemit_m⟩ := ih hm i hik
    obtain ⟨hti, hsi⟩ := runSim_counters cfg k st0 hT ht0 m
    rw [hs0] at hsi
    have hthr := congrFun (groupTickSim_thr cfg k (runSim cfg k st0 m)) i
    rw [if_pos hik, hti, hsi] at hthr
    rw [show quotaFor cfg k i ((s0 + m / cfg.ticksPerSecond) % k)
        (m % cfg.ticksPerSecond) = quotaAt cfg k s0 i m from rfl] at hthr
    have hwin := quotaAt_window_sum cfg k s0 i hT hk
    have hmono : (∑ j ∈ Finset.range (m + 1), quotaAt cfg k s0 i j)
        ≤ cfg.bytesPerSecond := by
      rw [← hwin]
      exact Finset.sum_le_sum_of_subset (Finset.range_subset.mpr hm1)
    have hsucc : (∑ j ∈ Finset.range (m + 1), quotaAt cfg k s0 i j)
        = (∑ j ∈ Finset.range m, quotaAt cfg k s0 i j) + quotaAt cfg k s0 i m :=
      Finset.sum_range_succ _ m
    have hq_le : quotaAt cfg k s0 i m
        ≤ ((runSim cfg k st0 m).thr i).pendingBytesCount := by
      rw [hcount_m]
      have := hpend i hik
      omega
    obtain ⟨_, hidx, hcnt, hsz2, _, hblen, hidw, _, hemeq, _, _⟩ :=
      process_char_some cfg (quotaAt cfg k s0 i m) ((runSim cfg k st0 m).thr i) hWFm
    have hminq : min (quotaAt cfg k s0 i m)
        ((runSim cfg k st0 m).thr i).pendingBytesCount = quotaAt cfg k s0 i m :=
      min_eq_left hq_le
    rw [hminq] at hcnt hemeq
    obtain ⟨hm0, hmlen, hmc, hmmax⟩ := hWFm
    have hnew : (runSim cfg k st0 (m + 1)).thr i
        = (process cfg (some (quotaAt cfg k s0 i m)) ((runSim cfg k st0 m).thr i)).1 := by
      show (groupTickSim cfg k (runSim cfg k st0 m)).thr i = _
      rw [hthr]
    rw [hnew]
    refine ⟨⟨⟨hidx, ?_, ?_, ?_⟩, ?_⟩, ?_, ?_⟩
    · rw [hblen, hsz2]
      exact hmlen
    · rw [hcnt, hsz2]
      omega
    · rw [hsz2]
      exact hmmax
    · rw [hidw]
      exact hprod_m
    · rw [hcnt, hcount_m, hsucc]
      omega
    · rw [hemeq, List.length_append, List.length_take,
        pendingSlice_length _ hm0 (by omega), hemit_m, hsucc]
      have := hpend i hik
      omega

/-- C1: over a stable in-flight set of `k` throttles, each holding at least
`bytesPerSecond` unemitted pending bytes, with every tick on time
(`delayMultiplier = 1`) and throttling enabled: in each of the next `k`
seconds every throttle emits exactly its rotated per-second partition part,
each second's aggregate emission across the set is exactly `bytesPerSecond`,
and over the `k` seconds of one full rotation every throttle emits exactly
`bytesPerSecond` bytes in total. -/
theorem group_tick_fairness (cfg : Config) (k s0 : Nat) (st0 : GroupSim)
    (_hthr : cfg.isThrottled = true)
    (hT : 1 ≤ cfg.ticksPerSecond) (hk : 1 ≤ k)
    (ht0 : st0.tickIndex = 0) (hs0 : st0.secondIndex = s0)
    (hready : ∀ i, i < k → Ready cfg (st0.thr i))
    (hpend : ∀ i, i < k →
      cfg.bytesPerSecond ≤ (st0.thr i).pendingBytesCount) :
    (∀ s, s < k → ∀ i, i < k →
      ((runSim cfg k st0 ((s + 1) * cfg.ticksPerSecond)).thr i).emitted.length
        - ((runSim cfg k st0 (s * cfg.ticksPerSecond)).thr i).emitted.length
        = getPartitionedIntegerPartAtIndex cfg.bytesPerSecond k
            ((i + (s0 + s)) % k)) ∧
    (∀ s, s < k →
      (∑ i ∈ Finset.range k,
        (((runSim cfg k st0 ((s + 1) * cfg.ticksPerSecond)).thr i).emitted.length
          - ((runSim cfg k st0 (s * cfg.ticksPerSecond)).thr i).emitted.length))
        = cfg.bytesPerSecond) ∧
    (∀ i, i < k →
      ((runSim cfg k st0 (k * cfg.ticksPerSecond)).thr i).emitted.length
        - (st0.thr i).emitted.length = cfg.bytesPerSecond) := by
  have hdelta : ∀ s, s < k → ∀ i, i < k →
      ((runSim cfg k st0 ((s + 1) * cfg.ticksPerSecond)).thr i).emitted.length
        - ((runSim cfg k st0 (s * cfg.ticksPerSecond)).thr i).emitted.length
        = getPartitionedIntegerPartAtIndex cfg.bytesPerSecond k
            ((i + (s0 + s)) % k) := by
    intro s hs i hik
    have hle1 : s * cfg.ticksPerSecond ≤ k * cfg.ticksPerSecond :=
      Nat.mul_le_mul_right _ (by omega)
    have hle2 : (s + 1) * cfg.ticksPerSecond ≤ k * cfg.ticksPerSecond :=
      Nat.mul_le_mul_right _ (by omega)
    obtain ⟨_, _, he1⟩ := runSim_spec cfg k s0 st0 hT hk ht0 hs0 hready hpend
      (s * cfg.ticksPerSecond) hle1 i hik
    obtain ⟨_, _, he2⟩ := runSim_spec cfg k s0 st0 hT hk ht0 hs0 hready hpend
      ((s + 1) * cfg.ticksPerSecond) hle2 i hik
    have hsplit : (∑ j ∈ Finset.range ((s + 1) * cfg.ticksPerSecond),
        quotaAt cfg k s0 i j)
        = (∑ j ∈ Finset.range (s * cfg.ticksPerSecond), quotaAt cfg k s0 i j)
          + ∑ t ∈ Finset.range cfg.ticksPerSecond,
              quotaAt cfg k s0 i (s * cfg.ticksPerSecond + t) := by
      rw [show (s + 1) * cfg.ticksPerSecond
          = s * cfg.ticksPerSecond + cfg.ticksPerSecond from by ring]
      exact sum_range_add_split _ _ _
    rw [he1, he2, hsplit, quotaAt_second_sum cfg k s0 i s hT]
    omega
  refine ⟨hdelta, ?_, ?_⟩
  · intro s hs
    have hcongr : ∀ i ∈ Finset.range k,
        (((runSim cfg k st0 ((s + 1) * cfg.ticksPerSecond)).thr i).emitted.length
          - ((runSim cfg k st0 (s * cfg.ticksPerSecond)).thr i).emitted.length)
          = getPartitionedIntegerPartAtIndex cfg.bytesPerSecond k
              ((i + (s0 + s)) % k) := by
      intro i hi
      simp only [Finset.mem_range] at hi
      exact hdelta s hs i hi
    rw [Finset.sum_congr rfl hcongr,
      sum_range_rotate k (s0 + s) (getPartitionedIntegerPartAtIndex cfg.bytesPerSecond k)]
    exact partition_sum _ _ hk
  · intro i hik
    obtain ⟨_, _, he⟩ := runSim_spec cfg k s0 st0 hT hk ht0 hs0 hready hpend
      (k * cfg.ticksPerSecond) (Nat.le_refl _) i hik
    rw [he, quotaAt_window_sum cfg k s0 i hT hk]
    omega

/-- Spec seed scenario 3: `bytesPerSecond = 7`, `ticksPerSecond = 1`, three
throttles each holding well over 7 pending bytes. -/
def cfgC1 : Config := ⟨7, true, 1, 7⟩

def thrC1 : ThrottleState where
  buffer := List.replicate 7 0
  pendingBytesCount := 7
  pendingBytesReadIndex := 0
  pendingBytesBufferExpandedFactor := 1
  pendingBytesBufferExpandedSize := 7
  isDataBeingWritten := true
  doneResolved := false
  destroyed := false
  written := List.replicate 7 0
  emitted := []

def stC1 : GroupSim where
  thr := fun _ => thrC1
  tickIndex := 0
  secondIndex := 0

theorem group_tick_fairness_witness :
    cfgC1.isThrottled = true ∧ 1 ≤ cfgC1.ticksPerSecond ∧ 1 ≤ 3 ∧
    ((runSim cfgC1 3 stC1 (3 * cfgC1.ticksPerSecond)).thr 0).emitted.length
      - (stC1.thr 0).emitted.length = cfgC1.bytesPerSecond :=
  ⟨rfl, by decide, by decide,
    (group_tick_fairness cfgC1 3 0 stC1 rfl (by decide) (by decide) rfl rfl
      (fun i _ => ⟨⟨rfl,
        (by decide : thrC1.buffer.length = thrC1.pendingBytesBufferExpandedSize),
        (by decide : thrC1.pendingBytesCount ≤ thrC1.pendingBytesBufferExpandedSize),
        (by decide : thrC1.pendingBytesBufferExpandedSize ≤ cfgC1.maxBufferSize)⟩, rfl⟩)
      (fun i _ => (by decide : cfgC1.bytesPerSecond ≤ thrC1.pendingBytesCount))).2.2
      0 (by decide)⟩

end Throttling



